import Mathlib

/-!
# Modbus framing layer of `zlib/modbus.go`

A shallow embedding of the request encoder (`MarshalBinary`), the
minimum-count reader (`ReadMin`), the response decoder (`GetModbusResponse`),
the function-code methods and the JSON form of `ModbusEvent`, followed by the
properties established about them.

Conventions of the embedding:

* a Go `[]byte` is a `List UInt8`; `len` is `List.length`;
* a Go `int` that can be negative (`bytes` of `ReadMin`) is an `Int`; counters
  that only grow from zero are `Nat`;
* the underlying connection is an abstract state machine `Reader σ` whose
  `read` takes the length of the slice handed to `Read` and answers with the
  bytes placed at its start together with an optional error; the type of the
  answer carries Go's `io.Reader` contract `0 <= n <= len(p)`;
* `encoding/json` and `encoding/base64` belong to Go's standard library; they
  are modelled at the one struct the event hands them, as the text they emit
  for it and a decoder of that text;
* the two `for` loops may spin forever (a read may deliver nothing without an
  error), so they are run under a bound on the number of reads; the outcome
  `Run.running` means the bound was used up and the loop wants to read again.
-/

namespace Zlib

/-! ## Slices -/

/-- Overwrite `buf` from offset `off` on with `data` (the caller keeps
`off + data.length ≤ buf.length`, so the length of `buf` is unchanged). -/
def writeAt (buf : List UInt8) (off : Nat) (data : List UInt8) : List UInt8 :=
  buf.take off ++ data ++ buf.drop (off + data.length)

/-- Go's builtin `copy(buf[lo:hi], src)`: copies `min (hi - lo) (len src)` bytes. -/
def copyInto (buf : List UInt8) (lo hi : Nat) (src : List UInt8) : List UInt8 :=
  writeAt buf lo (src.take (hi - lo))

/-- Go's conversion `uint16(n)` of a non-negative `int`. -/
def uint16 (n : Nat) : Nat := n % 65536

/-- The call `binary.BigEndian.PutUint16(buf[off:off+2], v)`:
`b[0] = byte(v >> 8); b[1] = byte(v)`. -/
def PutUint16 (buf : List UInt8) (off : Nat) (v : Nat) : List UInt8 :=
  (buf.set off (UInt8.ofNat (v / 256))).set (off + 1) (UInt8.ofNat v)

/-- The call `binary.BigEndian.Uint16(buf[off:off+2])`:
`uint16(b[1]) | uint16(b[0])<<8`. -/
def Uint16 (buf : List UInt8) (off : Nat) : Nat :=
  (buf.getD off 0).toNat * 256 + (buf.getD (off + 1) 0).toNat

/-! ## Encoding -/

/-- The package variable `ModbusHeaderBytes`. -/
def ModbusHeaderBytes : List UInt8 := [0x13, 0x37, 0x00, 0x00]

/-- The type `FunctionCode byte`. -/
abbrev FunctionCode := UInt8

/-- The struct `ModbusRequest`. -/
structure ModbusRequest where
  Function : FunctionCode
  Data : List UInt8
deriving DecidableEq, Repr

/-- The underlying error values a stream's `Read` may return. -/
inductive IOErr where
  | eof
  | other (code : Nat)
deriving DecidableEq, Repr

/-- The error values that leave this file's functions. -/
inductive Error where
  /-- An error of the underlying stream, handed on as it came. -/
  | underlying (e : IOErr)
  /-- The value `fmt.Errorf("modbus: response buffer too small")` of `ReadMin`. -/
  | responseBufferTooSmall
  /-- The value `fmt.Errorf("modbus: resporse buffer too small")` of the second
  loop of `GetModbusResponse` (the message is spelled so in the source). -/
  | resporseBufferTooSmall
  /-- The value `fmt.Errorf("modbus: not a modbus response")`. -/
  | notModbusResponse
  /-- The value `fmt.Errorf("modbus: could not get response: %e", err)`. -/
  | couldNotGetResponse (inner : Error)
deriving DecidableEq, Repr

/-- The method `(*ModbusRequest).MarshalBinary`; the error result is never
assigned, so it is `nil`. -/
def MarshalBinary (r : ModbusRequest) : List UInt8 × Option Error :=
  let data := List.replicate (7 + 1 + r.Data.length) (0 : UInt8)
  let data := copyInto data 0 4 ModbusHeaderBytes
  let msglen := r.Data.length + 2
  let data := PutUint16 data 4 (uint16 msglen)
  let data := data.set 7 r.Function
  let data := copyInto data 8 data.length r.Data
  (data, none)

/-- The wire format's length field as the specification words it: a 2-byte
big-endian encoding of `v`, most significant byte first. -/
def bigEndian16 (v : Nat) : List UInt8 :=
  [UInt8.ofNat (v / 256), UInt8.ofNat (v % 256)]

/-! ## The underlying stream -/

/-- What one call `Read(p)` with `len(p) = cap` returns: the `n` bytes it placed
at the start of `p` and its error. -/
structure ReadResult (cap : Nat) where
  data : List UInt8
  fits : data.length ≤ cap
  err : Option IOErr

/-- A connection seen as a state machine: `read s cap` is the call `Read(p)`
with `len(p) = cap` in state `s`. -/
structure Reader (σ : Type) where
  read : σ → (cap : Nat) → ReadResult cap × σ

/-- One call of `Read` as it was observed. -/
structure ReadEvent where
  cap : Nat
  data : List UInt8
  err : Option IOErr
deriving DecidableEq, Repr

/-- All bytes delivered by a sequence of reads, in order. -/
def delivered : List ReadEvent → List UInt8
  | [] => []
  | ev :: evs => ev.data ++ delivered evs

/-- The state in which a fill loop returns. -/
structure LoopResult (σ : Type) where
  cnt : Nat
  err : Option Error
  buf : List UInt8
  state : σ
  log : List ReadEvent
deriving DecidableEq

/-- The outcome of running a function under a bound on the number of reads:
either it returned, or it used up the bound and is about to read again;
`log` then holds the reads issued so far. -/
inductive Run (α : Type) where
  | returned (r : α)
  | running (log : List ReadEvent)
deriving DecidableEq

/-- The reads a bounded run of a fill loop has issued, returned or not. -/
def readsOf {σ : Type} : Run (LoopResult σ) → List ReadEvent
  | Run.returned r => r.log
  | Run.running log => log

/-- The loop shared, up to the message of its error, by `ReadMin` and by the
second half of `GetModbusResponse`:
```
for cnt < bytes {
    n, err = Read(res[cnt:]); cnt += n
    if err != nil && cnt >= len(res) { err = tooSmall }
    if err != nil { return }
}
```
The first argument bounds the number of reads; `log` collects the reads issued
so far. -/
def fillLoop {σ : Type} (rd : Reader σ) (tooSmall : Error) (bytes : Int) :
    Nat → σ → List UInt8 → Nat → List ReadEvent → Run (LoopResult σ)
  | 0, s, res, cnt, log =>
    if (cnt : Int) < bytes then Run.running log
    else Run.returned ⟨cnt, none, res, s, log⟩
  | fuel + 1, s, res, cnt, log =>
    if (cnt : Int) < bytes then
      let out := rd.read s (res.length - cnt)
      let res1 := writeAt res cnt out.1.data
      let cnt1 := cnt + out.1.data.length
      let log1 := log ++ [⟨res.length - cnt, out.1.data, out.1.err⟩]
      match out.1.err with
      | some e =>
        if cnt1 ≥ res.length then
          Run.returned ⟨cnt1, some tooSmall, res1, out.2, log1⟩
        else
          Run.returned ⟨cnt1, some (Error.underlying e), res1, out.2, log1⟩
      | none => fillLoop rd tooSmall bytes fuel out.2 res1 cnt1 log1
    else
      Run.returned ⟨cnt, none, res, s, log⟩

/-- The method `(*Conn).ReadMin`, allowed `fuel` reads. -/
def ReadMin {σ : Type} (rd : Reader σ) (fuel : Nat) (s : σ) (res : List UInt8)
    (bytes : Int) : Run (LoopResult σ) :=
  fillLoop rd Error.responseBufferTooSmall bytes fuel s res 0 []

/-- The struct `ModbusResponse`; the zero value has `Data = nil`, the empty
slice. -/
structure ModbusResponse where
  Function : FunctionCode
  Data : List UInt8
deriving DecidableEq, Repr

/-- What `GetModbusResponse` returns, with the state the stream is left in and
the reads that were issued. -/
structure DecodeResult (σ : Type) where
  res : ModbusResponse
  err : Option Error
  state : σ
  log : List ReadEvent
deriving DecidableEq

/-- The scratch buffer `make([]byte, 1024)` of `GetModbusResponse`. -/
def scratch : List UInt8 := List.replicate 1024 0

/-- The method `(*Conn).GetModbusResponse`, allowed `fuel` reads in all. -/
def GetModbusResponse {σ : Type} (rd : Reader σ) (fuel : Nat) (s : σ) :
    Run (DecodeResult σ) :=
  let buf := scratch
  match ReadMin rd fuel s buf 6 with
  | Run.running log => Run.running log
  | Run.returned r1 =>
    match r1.err with
    | some e =>
      Run.returned ⟨⟨0, []⟩, some (Error.couldNotGetResponse e), r1.state, r1.log⟩
    | none =>
      if r1.buf.take 4 ≠ ModbusHeaderBytes then
        Run.returned ⟨⟨0, []⟩, some Error.notModbusResponse, r1.state, r1.log⟩
      else
        let msglen : Int := (Uint16 r1.buf 4 : Nat)
        match fillLoop rd Error.resporseBufferTooSmall (msglen + 6)
            (fuel - r1.log.length) r1.state r1.buf r1.cnt r1.log with
        | Run.running log => Run.running log
        | Run.returned r2 =>
          match r2.err with
          | some e => Run.returned ⟨⟨0, []⟩, some e, r2.state, r2.log⟩
          | none =>
            Run.returned ⟨⟨r2.buf.getD 7 0, r2.buf.drop 8⟩, none, r2.state, r2.log⟩

/-! ## Concrete streams -/

/-- A scripted stream: the chunks still to be delivered, each with the error
that accompanies its last byte. -/
abbrev Script := List (List UInt8 × Option IOErr)

/-- One read of a scripted stream: the next chunk, cut to the capacity of the
slice (the rest stays queued); `io.EOF` once the script is used up. -/
def scriptRead (s : Script) (cap : Nat) : ReadResult cap × Script :=
  match s with
  | [] => (⟨[], Nat.zero_le _, some IOErr.eof⟩, [])
  | (c, e) :: rest =>
    if h : c.length ≤ cap then (⟨c, h, e⟩, rest)
    else (⟨c.take cap, by simp, none⟩, (c.drop cap, e) :: rest)

/-- The scripted stream as a reader. -/
def scriptReader : Reader Script := ⟨scriptRead⟩

/-- Chunks delivered by error-free reads. -/
def chunksScript (chunks : List (List UInt8)) : Script :=
  chunks.map fun c => (c, none)

/-- One read of a stream that behaves like Go's `net.Conn`: a read into an empty
slice returns `0, nil` at once, any other read is served from the script. -/
def netRead (s : Script) (cap : Nat) : ReadResult cap × Script :=
  if cap = 0 then (⟨[], Nat.zero_le _, none⟩, s) else scriptRead s cap

/-- The `net.Conn`-like stream as a reader. -/
def netReader : Reader Script := ⟨netRead⟩

/-- The frame `13 37 00 00 00 04 00 03 AA BB`: declared length 4, function
code `0x03`, payload `AA BB`. -/
def sampleFrame : List UInt8 := [0x13, 0x37, 0x00, 0x00, 0x00, 0x04, 0x00, 0x03, 0xAA, 0xBB]

/-- One read of a stream that hands out its bytes one per read: a read into a
non-empty slice delivers the next byte, or `io.EOF` when none is left. -/
def oneByteRead (s : List UInt8) (cap : Nat) : ReadResult cap × List UInt8 :=
  match s with
  | [] => (⟨[], Nat.zero_le _, some IOErr.eof⟩, [])
  | b :: rest =>
    if h : 0 < cap then (⟨[b], h, none⟩, rest) else (⟨[], Nat.zero_le _, none⟩, b :: rest)

/-- The one-byte-per-read stream as a reader. -/
def oneByteReader : Reader (List UInt8) := ⟨oneByteRead⟩

/-! ## Function codes and exception function codes -/

/-- The type `ExceptionFunctionCode byte`. -/
abbrev ExceptionFunctionCode := UInt8

/-- The type `ExceptionCode byte`. -/
abbrev ExceptionCode := UInt8

/-- The method `(ExceptionFunctionCode).FunctionCode`:
`code := byte(e) & byte(0x79)`. -/
def ExceptionFunctionCode.FunctionCode (e : Zlib.ExceptionFunctionCode) : Zlib.FunctionCode :=
  e &&& 0x79

/-- The method `(FunctionCode).ExceptionFunctionCode`:
`code := byte(c) | byte(0x80)`. -/
def FunctionCode.ExceptionFunctionCode (c : Zlib.FunctionCode) : Zlib.ExceptionFunctionCode :=
  c ||| 0x80

/-- The method `(FunctionCode).IsException`: `(byte(c) & 0x80) == 0x80`. -/
def FunctionCode.IsException (c : Zlib.FunctionCode) : Bool :=
  (c &&& 0x80) == 0x80

/-- The package variable `ModbusFunctionEncapsulatedInterface`. -/
def ModbusFunctionEncapsulatedInterface : FunctionCode := 0x2B

/-! ## Captured events and their JSON form -/

/-- The struct `ModbusEvent`. A Go slice may be `nil`, which `encoding/json`
tells apart from an empty slice, so `Response` is `none` for `nil`. -/
structure ModbusEvent where
  Function : FunctionCode
  Response : Option (List UInt8)
deriving DecidableEq, Repr

/-- The struct `encodedModbusEvent`, with the JSON keys `function_code` and
`response`. -/
structure encodedModbusEvent where
  Function : FunctionCode
  Response : Option (List UInt8)
deriving DecidableEq, Repr

/-- The errors of `json.Unmarshal`. -/
inductive JsonError where
  | syntaxError
  | numberOutOfRange
  | corruptBase64
deriving DecidableEq, Repr

/-- The two functions of `encoding/json` that the event uses, at the type
`encodedModbusEvent`; JSON text is a list of characters. -/
structure JsonCodec where
  Marshal : encodedModbusEvent → Except JsonError (List Char)
  Unmarshal : List Char → Except JsonError encodedModbusEvent

/-- The method `(*ModbusEvent).MarshalJSON`. -/
def MarshalJSON (json : JsonCodec) (m : ModbusEvent) : Except JsonError (List Char) :=
  let e : encodedModbusEvent := ⟨m.Function, m.Response⟩
  json.Marshal e

/-- The method `(*ModbusEvent).UnmarshalJSON`: the receiver after the call and
the error returned. -/
def UnmarshalJSON (json : JsonCodec) (m : ModbusEvent) (b : List Char) :
    ModbusEvent × Option JsonError :=
  match json.Unmarshal b with
  | Except.error err => (m, some err)
  | Except.ok e => (⟨e.Function, e.Response⟩, none)

/-! ### The standard library's encoding -/

/-- The double quote character. -/
def quoteChar : Char := Char.ofNat 34

/-- The opening brace. -/
def openBrace : Char := Char.ofNat 123

/-- The closing brace. -/
def closeBrace : Char := Char.ofNat 125

/-- The padding character `=` of base64. -/
def padChar : Char := Char.ofNat 61

/-- The alphabet of `base64.StdEncoding`: `A`–`Z`, `a`–`z`, `0`–`9`, `+`, `/`. -/
def b64Char (n : Nat) : Char :=
  if n < 26 then Char.ofNat (65 + n)
  else if n < 52 then Char.ofNat (97 + (n - 26))
  else if n < 62 then Char.ofNat (48 + (n - 52))
  else if n = 62 then Char.ofNat 43
  else Char.ofNat 47

/-- The value of a character of the base64 alphabet. -/
def b64Index (c : Char) : Option Nat :=
  let v := c.toNat
  if 65 ≤ v ∧ v ≤ 90 then some (v - 65)
  else if 97 ≤ v ∧ v ≤ 122 then some (v - 97 + 26)
  else if 48 ≤ v ∧ v ≤ 57 then some (v - 48 + 52)
  else if v = 43 then some 62
  else if v = 47 then some 63
  else none

/-- The function `base64.StdEncoding.EncodeToString`: 3 bytes give 4
characters, a last group of 1 or 2 bytes is padded with `=`. -/
def b64Encode : List UInt8 → List Char
  | [] => []
  | [x] => [b64Char (x.toNat / 4), b64Char (x.toNat % 4 * 16), padChar, padChar]
  | [x, y] =>
    [b64Char (x.toNat / 4), b64Char (x.toNat % 4 * 16 + y.toNat / 16),
      b64Char (y.toNat % 16 * 4), padChar]
  | x :: y :: z :: rest =>
    b64Char (x.toNat / 4) :: b64Char (x.toNat % 4 * 16 + y.toNat / 16) ::
      b64Char (y.toNat % 16 * 4 + z.toNat / 64) :: b64Char (z.toNat % 64) :: b64Encode rest

/-- The function `base64.StdEncoding.DecodeString`, on padded input without
line breaks. -/
def b64Decode : List Char → Option (List UInt8)
  | [] => some []
  | a :: b :: c :: d :: rest =>
    if rest = [] ∧ d = padChar then
      if c = padChar then
        match b64Index a, b64Index b with
        | some ia, some ib => some [UInt8.ofNat (ia * 4 + ib / 16)]
        | _, _ => none
      else
        match b64Index a, b64Index b, b64Index c with
        | some ia, some ib, some ic =>
          some [UInt8.ofNat (ia * 4 + ib / 16), UInt8.ofNat (ib % 16 * 16 + ic / 4)]
        | _, _, _ => none
    else
      match b64Index a, b64Index b, b64Index c, b64Index d, b64Decode rest with
      | some ia, some ib, some ic, some id, some bs =>
        some (UInt8.ofNat (ia * 4 + ib / 16) :: UInt8.ofNat (ib % 16 * 16 + ic / 4) ::
          UInt8.ofNat (ic % 4 * 64 + id) :: bs)
      | _, _, _, _, _ => none
  | _ => none

/-- The longest prefix of characters that satisfy `p`, and the rest. -/
def spanWhile (p : Char → Bool) : List Char → List Char × List Char
  | [] => ([], [])
  | c :: cs => if p c then ((c :: (spanWhile p cs).1), (spanWhile p cs).2) else ([], c :: cs)

/-- The input without the prefix `p`, when it starts with `p`. -/
def stripPrefix : List Char → List Char → Option (List Char)
  | [], s => some s
  | _ :: _, [] => none
  | c :: p, d :: s => if c = d then stripPrefix p s else none

/-- A JSON number read into a `uint8`: decimal digits without a leading zero,
of value at most 255. -/
def parseUint8 (ds : List Char) : Except JsonError UInt8 :=
  match ds with
  | [] => Except.error JsonError.syntaxError
  | d :: rest =>
    if d = Char.ofNat 48 ∧ rest ≠ [] then Except.error JsonError.syntaxError
    else
      let v := ds.foldl (fun acc c => acc * 10 + (c.toNat - 48)) 0
      if v < 256 then Except.ok (UInt8.ofNat v) else Except.error JsonError.numberOutOfRange

/-- The text `"function_code":` that opens the object after its brace. -/
def functionKey : List Char := quoteChar :: "function_code".toList ++ [quoteChar, Char.ofNat 58]

/-- The text `,"response":` between the two values. -/
def responseKey : List Char :=
  Char.ofNat 44 :: quoteChar :: "response".toList ++ [quoteChar, Char.ofNat 58]

/-- The function `json.Marshal` at `encodedModbusEvent`: an object with the two
keys in the order of the fields, the function code as a decimal number, the
response as `null` for a nil slice and as a base64 string otherwise. It does not
fail at this type. -/
def goMarshal (e : encodedModbusEvent) : Except JsonError (List Char) :=
  let value := match e.Response with
    | none => "null".toList
    | some bs => quoteChar :: b64Encode bs ++ [quoteChar]
  Except.ok (openBrace :: functionKey ++ Nat.toDigits 10 e.Function.toNat ++ responseKey
    ++ value ++ [closeBrace])

/-- The function `json.Unmarshal` into a fresh `encodedModbusEvent`, on the
documents of the shape that `json.Marshal` gives this struct: the two keys in
the order of the fields and no white space. Every other input is reported as a
syntax error here, also where the library accepts it. -/
def goUnmarshal (b : List Char) : Except JsonError encodedModbusEvent :=
  match stripPrefix (openBrace :: functionKey) b with
  | none => Except.error JsonError.syntaxError
  | some r1 =>
    match parseUint8 (spanWhile Char.isDigit r1).1 with
    | Except.error err => Except.error err
    | Except.ok f =>
      match stripPrefix responseKey (spanWhile Char.isDigit r1).2 with
      | none => Except.error JsonError.syntaxError
      | some r2 =>
        match stripPrefix "null".toList r2 with
        | some r3 =>
          if r3 = [closeBrace] then Except.ok ⟨f, none⟩
          else Except.error JsonError.syntaxError
        | none =>
          match stripPrefix [quoteChar] r2 with
          | none => Except.error JsonError.syntaxError
          | some r3 =>
            if (spanWhile (fun c => c != quoteChar) r3).2 = [quoteChar, closeBrace] then
              match b64Decode (spanWhile (fun c => c != quoteChar) r3).1 with
              | none => Except.error JsonError.corruptBase64
              | some bs => Except.ok ⟨f, some bs⟩
            else Except.error JsonError.syntaxError

/-- The package `encoding/json` as the event uses it. -/
def goJson : JsonCodec := ⟨goMarshal, goUnmarshal⟩

/-! ## Facts about bytes and slices -/

theorem toNat_ofNat_byte (n : Nat) : (UInt8.ofNat n).toNat = n % 256 := rfl

theorem ofNat_mod_byte (n : Nat) : UInt8.ofNat (n % 256) = UInt8.ofNat n := by
  apply UInt8.eq_of_val_eq
  apply Fin.ext
  show (n % 256) % 256 = n % 256
  omega

theorem replicate_eight_add (n : Nat) (a : UInt8) :
    List.replicate (7 + 1 + n) a =
      a :: a :: a :: a :: a :: a :: a :: a :: List.replicate n a := by
  have h : 7 + 1 + n = n + 8 := by omega
  rw [h]
  rfl

/-- The frame built by `MarshalBinary`, byte by byte, for a payload of any
length. -/
theorem MarshalBinary_layout (f : FunctionCode) (d : List UInt8) :
    (MarshalBinary ⟨f, d⟩).1 =
      ModbusHeaderBytes ++
        [UInt8.ofNat (uint16 (d.length + 2) / 256), UInt8.ofNat (uint16 (d.length + 2)), 0, f]
        ++ d := by
  simp only [MarshalBinary, replicate_eight_add, copyInto, writeAt, PutUint16,
    ModbusHeaderBytes]
  simp
  omega

/-- The length field of the frame built by `MarshalBinary`, read back, is the
length of the payload plus two reduced modulo `2^16`. -/
theorem MarshalBinary_length_field (f : FunctionCode) (d : List UInt8) :
    Uint16 (MarshalBinary ⟨f, d⟩).1 4 = (d.length + 2) % 65536 := by
  rw [MarshalBinary_layout]
  simp only [Uint16, ModbusHeaderBytes, List.cons_append, List.nil_append, List.getD_cons_succ,
    List.getD_cons_zero, toNat_ofNat_byte, uint16]
  omega

/-! ## Facts about the fill loop -/

theorem writeAt_length (buf : List UInt8) (off : Nat) (d : List UInt8)
    (h : off + d.length ≤ buf.length) : (writeAt buf off d).length = buf.length := by
  simp only [writeAt, List.length_append, List.length_take, List.length_drop]
  omega

theorem writeAt_nil (buf : List UInt8) (off : Nat) : writeAt buf off [] = buf := by
  simp [writeAt]

theorem writeAt_writeAt (buf : List UInt8) (off : Nat) (d1 d2 : List UInt8)
    (h : off ≤ buf.length) :
    writeAt (writeAt buf off d1) (off + d1.length) d2 = writeAt buf off (d1 ++ d2) := by
  have hl : (List.take off buf ++ d1).length = off + d1.length := by
    simp [List.length_take]; omega
  have hd : List.drop (off + d1.length + d2.length)
      (List.take off buf ++ d1 ++ List.drop (off + d1.length) buf)
      = List.drop (off + (d1 ++ d2).length) buf := by
    rw [← hl, List.drop_append, List.drop_drop, hl, List.length_append]
    congr 1
    omega
  unfold writeAt
  rw [List.take_left' hl, hd]
  simp [List.append_assoc]

theorem delivered_append (a b : List ReadEvent) :
    delivered (a ++ b) = delivered a ++ delivered b := by
  induction a with
  | nil => rfl
  | cons ev a ih => simp [delivered, ih]

theorem delivered_singleton (ev : ReadEvent) : delivered [ev] = ev.data := by
  simp [delivered]

/-- What holds of a fill loop that returned: the reads `evs` it issued, the
position it reached and the contents of its buffer. -/
theorem fillLoop_returned {σ : Type} (rd : Reader σ) (ts : Error) (bytes : Int) :
    ∀ (fuel : Nat) (s : σ) (res : List UInt8) (cnt : Nat) (log : List ReadEvent)
      (r : LoopResult σ), cnt ≤ res.length →
      fillLoop rd ts bytes fuel s res cnt log = Run.returned r →
      ∃ evs : List ReadEvent, r.log = log ++ evs ∧ evs.length ≤ fuel ∧
        r.cnt = cnt + (delivered evs).length ∧ r.cnt ≤ res.length ∧
        r.buf = writeAt res cnt (delivered evs) ∧
        (∀ ev ∈ evs, ev.data.length ≤ ev.cap) ∧
        (r.err = none → bytes ≤ (r.cnt : Int) ∧ (∀ ev ∈ evs, ev.err = none) ∧
          (evs = [] ∨ ∃ ini last, evs = ini ++ [last] ∧
            ((cnt + (delivered ini).length : Nat) : Int) < bytes)) ∧
        (∀ e, r.err = some e → ∃ ini last e0, evs = ini ++ [last] ∧
          (∀ ev ∈ ini, ev.err = none) ∧ last.err = some e0 ∧
          e = if res.length ≤ r.cnt then ts else Error.underlying e0) := by
  intro fuel
  induction fuel with
  | zero =>
    intro s res cnt log r hc h
    simp only [fillLoop] at h
    split at h
    · cases h
    · rename_i hlt
      cases h
      refine ⟨[], by simp, by simp, by simp [delivered], hc, by simp [delivered, writeAt_nil],
        by simp, ?_, by simp⟩
      intro _
      exact ⟨by simpa using hlt, by simp, Or.inl rfl⟩
  | succ fuel ih =>
    intro s res cnt log r hc h
    simp only [fillLoop] at h
    split at h
    · rename_i hlt
      have hfit := (rd.read s (res.length - cnt)).1.fits
      have hc1 : cnt + (rd.read s (res.length - cnt)).1.data.length ≤ res.length := by omega
      split at h
      · rename_i e0 he0
        refine ⟨[⟨res.length - cnt, (rd.read s (res.length - cnt)).1.data,
          (rd.read s (res.length - cnt)).1.err⟩], ?_⟩
        split at h
        · rename_i hfull
          cases h
          refine ⟨rfl, by simp, by simp [delivered], hc1, by simp [delivered], by simpa using hfit,
            by simp, ?_⟩
          intro e he
          refine ⟨[], _, e0, rfl, by simp, he0, ?_⟩
          simp only [Option.some.injEq] at he
          simp [← he, hfull]
        · rename_i hfull
          cases h
          refine ⟨rfl, by simp, by simp [delivered], hc1, by simp [delivered], by simpa using hfit,
            by simp, ?_⟩
          intro e he
          refine ⟨[], _, e0, rfl, by simp, he0, ?_⟩
          simp only [Option.some.injEq] at he
          simp only [← he]
          rw [if_neg]
          omega
      · rename_i he0
        have hlen : (writeAt res cnt (rd.read s (res.length - cnt)).1.data).length = res.length :=
          writeAt_length _ _ _ hc1
        obtain ⟨evs, h1, h2, h3, h4, h5, h6, h7, h8⟩ := ih _ _ _ _ r (by rw [hlen]; exact hc1) h
        refine ⟨⟨res.length - cnt, (rd.read s (res.length - cnt)).1.data,
          (rd.read s (res.length - cnt)).1.err⟩ :: evs, ?_, ?_, ?_, ?_, ?_, ?_, ?_, ?_⟩
        · rw [h1]; simp
        · simp; omega
        · rw [h3]; simp [delivered]; omega
        · rw [hlen] at h4; exact h4
        · rw [h5, writeAt_writeAt _ _ _ _ hc]; rfl
        · intro ev hev
          rcases List.mem_cons.mp hev with rfl | hev
          · exact hfit
          · exact h6 ev hev
        · intro hr
          obtain ⟨a, b, c⟩ := h7 hr
          refine ⟨a, ?_, ?_⟩
          · intro ev hev
            rcases List.mem_cons.mp hev with rfl | hev
            · exact he0
            · exact b ev hev
          · right
            rcases c with rfl | ⟨ini, last, hi, hl⟩
            · exact ⟨[], _, rfl, by simpa [delivered] using hlt⟩
            · refine ⟨_ :: ini, last, by rw [hi]; rfl, ?_⟩
              simp only [delivered, List.length_append]
              rw [← Nat.add_assoc]
              exact hl
        · intro e he
          obtain ⟨ini, last, e0, hi, hn, hl, hee⟩ := h8 e he
          refine ⟨_ :: ini, last, e0, by rw [hi]; rfl, ?_, hl, ?_⟩
          · intro ev hev
            rcases List.mem_cons.mp hev with rfl | hev
            · exact he0
            · exact hn ev hev
          · rw [hlen] at hee; exact hee
    · rename_i hlt
      cases h
      refine ⟨[], by simp, by simp, by simp [delivered], hc, by simp [delivered, writeAt_nil],
        by simp, ?_, by simp⟩
      intro _
      exact ⟨by simpa using hlt, by simp, Or.inl rfl⟩

/-- What holds of a fill loop that used up its bound: it issued that many reads,
none of them returned an error, and it still lacks bytes. -/
theorem fillLoop_running {σ : Type} (rd : Reader σ) (ts : Error) (bytes : Int) :
    ∀ (fuel : Nat) (s : σ) (res : List UInt8) (cnt : Nat) (log lg : List ReadEvent),
      cnt ≤ res.length →
      fillLoop rd ts bytes fuel s res cnt log = Run.running lg →
      ∃ evs : List ReadEvent, lg = log ++ evs ∧ evs.length = fuel ∧
        (∀ ev ∈ evs, ev.err = none) ∧
        ((cnt + (delivered evs).length : Nat) : Int) < bytes ∧
        cnt + (delivered evs).length ≤ res.length := by
  intro fuel
  induction fuel with
  | zero =>
    intro s res cnt log lg hc h
    simp only [fillLoop] at h
    split at h
    · rename_i hlt
      cases h
      exact ⟨[], by simp, rfl, by simp, by simpa [delivered] using hlt, by simpa [delivered] using hc⟩
    · cases h
  | succ fuel ih =>
    intro s res cnt log lg hc h
    simp only [fillLoop] at h
    split at h
    · have hfit := (rd.read s (res.length - cnt)).1.fits
      have hc1 : cnt + (rd.read s (res.length - cnt)).1.data.length ≤ res.length := by omega
      split at h
      · split at h <;> cases h
      · rename_i he0
        have hlen : (writeAt res cnt (rd.read s (res.length - cnt)).1.data).length = res.length :=
          writeAt_length _ _ _ hc1
        obtain ⟨evs, h1, h2, h3, h4, h5⟩ := ih _ _ _ _ lg (by rw [hlen]; exact hc1) h
        refine ⟨⟨res.length - cnt, (rd.read s (res.length - cnt)).1.data,
          (rd.read s (res.length - cnt)).1.err⟩ :: evs, ?_, ?_, ?_, ?_, ?_⟩
        · rw [h1]; simp
        · simp [h2]
        · intro ev hev
          rcases List.mem_cons.mp hev with rfl | hev
          · exact he0
          · exact h3 ev hev
        · simp only [delivered, List.length_append]
          rw [← Nat.add_assoc]
          exact h4
        · simp only [delivered, List.length_append]
          rw [hlen] at h5
          omega
    · cases h


/-! ## The encoder -/

/-- C2. For a payload of at most 65533 bytes `MarshalBinary` returns a nil error
and a frame of `8 + len(d)` bytes: the marker `13 37 00 00`, the big-endian
16-bit value `len(d) + 2`, a zero byte, the function code, the payload. -/
theorem MarshalBinary_wire_frame (f : FunctionCode) (d : List UInt8)
    (hd : d.length ≤ 65533) :
    (MarshalBinary ⟨f, d⟩).2 = none ∧
      (MarshalBinary ⟨f, d⟩).1.length = 8 + d.length ∧
      (MarshalBinary ⟨f, d⟩).1 =
        [0x13, 0x37, 0x00, 0x00] ++ bigEndian16 (d.length + 2) ++ [0x00] ++ [f] ++ d := by
  have hu : uint16 (d.length + 2) = d.length + 2 := by
    unfold uint16
    omega
  have hlay := MarshalBinary_layout f d
  rw [hu, ← ofNat_mod_byte (d.length + 2)] at hlay
  refine ⟨rfl, ?_, ?_⟩
  · rw [hlay]
    simp [ModbusHeaderBytes]
    omega
  · rw [hlay]
    simp [ModbusHeaderBytes, bigEndian16]

/-- C2, at the request with function code `0x03` and payload `AA BB`. -/
theorem MarshalBinary_wire_frame_witness :
    ([0xAA, 0xBB] : List UInt8).length ≤ 65533 ∧
      ((MarshalBinary ⟨0x03, [0xAA, 0xBB]⟩).2 = none ∧
        (MarshalBinary ⟨0x03, [0xAA, 0xBB]⟩).1.length = 8 + ([0xAA, 0xBB] : List UInt8).length ∧
        (MarshalBinary ⟨0x03, [0xAA, 0xBB]⟩).1 =
          [0x13, 0x37, 0x00, 0x00] ++ bigEndian16 (([0xAA, 0xBB] : List UInt8).length + 2)
            ++ [0x00] ++ [0x03] ++ [0xAA, 0xBB]) :=
  ⟨by decide, MarshalBinary_wire_frame 0x03 [0xAA, 0xBB] (by decide)⟩

/-- C3, as stated, fails: for a payload of 65534 zero bytes the length field of
the frame reads 0, not `len(d) + 2 = 65536`. -/
theorem MarshalBinary_length_field_wraps :
    Uint16 (MarshalBinary ⟨0x03, List.replicate 65534 0⟩).1 4 = 0 ∧
      Uint16 (MarshalBinary ⟨0x03, List.replicate 65534 0⟩).1 4
        ≠ (List.replicate 65534 (0 : UInt8)).length + 2 := by
  rw [MarshalBinary_length_field, List.length_replicate]
  constructor <;> decide

/-- C3, amended. For a payload of at most 65533 bytes, bytes 4 and 5 of the frame
built by `MarshalBinary`, read as a big-endian unsigned 16-bit integer, give
`len(d) + 2`. -/
theorem MarshalBinary_length_field_exact (f : FunctionCode) (d : List UInt8)
    (hd : d.length ≤ 65533) :
    Uint16 (MarshalBinary ⟨f, d⟩).1 4 = d.length + 2 := by
  rw [MarshalBinary_length_field]
  omega

/-- C3 amended, at the request with function code `0x03` and payload `AA BB`. -/
theorem MarshalBinary_length_field_exact_witness :
    ([0xAA, 0xBB] : List UInt8).length ≤ 65533 ∧
      Uint16 (MarshalBinary ⟨0x03, [0xAA, 0xBB]⟩).1 4 = ([0xAA, 0xBB] : List UInt8).length + 2 :=
  ⟨by decide, MarshalBinary_length_field_exact 0x03 [0xAA, 0xBB] (by decide)⟩

/-! ## The minimum-count reader -/

/-- C4. A `ReadMin(res, n)` that returns a nil error returns a count of at least
`n`; the count is the number of bytes the stream delivered, and these bytes
stand, in the order of delivery, at the start of the buffer, whose length and
remaining bytes are unchanged. -/
theorem ReadMin_no_short_success {σ : Type} (rd : Reader σ) (fuel : Nat) (s : σ)
    (res : List UInt8) (n : Int) (r : LoopResult σ)
    (h : ReadMin rd fuel s res n = Run.returned r) (hok : r.err = none) :
    n ≤ (r.cnt : Int) ∧ r.cnt = (delivered r.log).length ∧
      r.buf.take r.cnt = delivered r.log ∧ r.buf.drop r.cnt = res.drop r.cnt ∧
      r.buf.length = res.length := by
  obtain ⟨evs, h1, -, h3, h4, h5, -, h7, -⟩ :=
    fillLoop_returned rd _ n fuel s res 0 [] r (Nat.zero_le _) h
  simp only [List.nil_append] at h1
  subst h1
  simp only [Nat.zero_add] at h3
  have hw : r.buf = delivered r.log ++ res.drop r.cnt := by
    rw [h5, h3]; simp [writeAt]
  refine ⟨(h7 hok).1, h3, ?_, ?_, ?_⟩
  · rw [hw, h3]; simp
  · rw [hw]
    exact List.drop_left' h3.symm
  · rw [h5]
    exact writeAt_length _ _ _ (by omega)

/-- C4, at a stream that delivers 8 bytes in reads of 2, 3 and 3 bytes into a
buffer of 8 bytes, 6 bytes being required. -/
theorem ReadMin_no_short_success_witness :
    ReadMin scriptReader 5 (chunksScript [[1, 2], [3, 4, 5], [6, 7, 8]])
        (List.replicate 8 0) 6
      = Run.returned ⟨8, none, [1, 2, 3, 4, 5, 6, 7, 8], [],
          [⟨8, [1, 2], none⟩, ⟨6, [3, 4, 5], none⟩, ⟨3, [6, 7, 8], none⟩]⟩ ∧
      ((6 : Int) ≤ ((8 : Nat) : Int) ∧ 8 = (delivered [⟨8, [1, 2], none⟩, ⟨6, [3, 4, 5], none⟩,
          ⟨3, [6, 7, 8], none⟩]).length ∧
        ([1, 2, 3, 4, 5, 6, 7, 8] : List UInt8).take 8 = delivered [⟨8, [1, 2], none⟩,
          ⟨6, [3, 4, 5], none⟩, ⟨3, [6, 7, 8], none⟩] ∧
        ([1, 2, 3, 4, 5, 6, 7, 8] : List UInt8).drop 8 = (List.replicate 8 (0 : UInt8)).drop 8 ∧
        ([1, 2, 3, 4, 5, 6, 7, 8] : List UInt8).length = (List.replicate 8 (0 : UInt8)).length) :=
  ⟨by decide, ReadMin_no_short_success scriptReader 5
    (chunksScript [[1, 2], [3, 4, 5], [6, 7, 8]]) (List.replicate 8 0) 6
    ⟨8, none, [1, 2, 3, 4, 5, 6, 7, 8], [],
      [⟨8, [1, 2], none⟩, ⟨6, [3, 4, 5], none⟩, ⟨3, [6, 7, 8], none⟩]⟩ (by decide) rfl⟩


/-- The buffer and the count of a `ReadMin` that returned, in terms of the bytes
the stream delivered. -/
theorem ReadMin_returned_buf {σ : Type} (rd : Reader σ) (fuel : Nat) (s : σ)
    (res : List UInt8) (n : Int) (r : LoopResult σ)
    (h : ReadMin rd fuel s res n = Run.returned r) :
    r.buf = delivered r.log ++ res.drop (delivered r.log).length ∧
      r.cnt = (delivered r.log).length ∧ r.cnt ≤ res.length ∧ r.log.length ≤ fuel ∧
      (r.err = none → n ≤ (r.cnt : Int)) := by
  obtain ⟨evs, h1, h2, h3, h4, h5, -, h7, -⟩ :=
    fillLoop_returned rd _ n fuel s res 0 [] r (Nat.zero_le _) h
  simp only [List.nil_append] at h1
  subst h1
  simp only [Nat.zero_add] at h3
  refine ⟨?_, h3, h4, h2, fun hok => (h7 hok).1⟩
  rw [h5]
  simp [writeAt]

/-! ## The decoder -/

set_option maxRecDepth 100000

/-- C5. When the header is read without error and the first 4 bytes delivered by
the stream differ from the marker, `GetModbusResponse` returns the error
"modbus: not a modbus response" with the zero response; the reads it has issued
are those of the header's `ReadMin` and no more, and the stream is left in the
state that `ReadMin` left it in. The length field plays no part in the result. -/
theorem GetModbusResponse_header_rejection {σ : Type} (rd : Reader σ) (fuel : Nat) (s : σ)
    (r1 : LoopResult σ) (h1 : ReadMin rd fuel s scratch 6 = Run.returned r1)
    (hok : r1.err = none) (hne : (delivered r1.log).take 4 ≠ ModbusHeaderBytes) :
    GetModbusResponse rd fuel s =
      Run.returned ⟨⟨0, []⟩, some Error.notModbusResponse, r1.state, r1.log⟩ := by
  obtain ⟨hb, hc, -, -, hn⟩ := ReadMin_returned_buf rd fuel s scratch 6 r1 h1
  have h6 : 6 ≤ (delivered r1.log).length := by
    have := hn hok
    omega
  have ht : r1.buf.take 4 = (delivered r1.log).take 4 := by
    rw [hb]
    exact List.take_append_of_le_length (by omega)
  simp only [GetModbusResponse, h1, hok]
  rw [if_pos]
  rw [ht]
  exact hne

/-- C5, at a stream that delivers `47 45 54 20 2F 20` in one read. -/
theorem GetModbusResponse_header_rejection_witness :
    ReadMin scriptReader 4 (chunksScript [[0x47, 0x45, 0x54, 0x20, 0x2F, 0x20]]) scratch 6
      = Run.returned ⟨6, none, [0x47, 0x45, 0x54, 0x20, 0x2F, 0x20] ++ List.replicate 1018 0, [],
          [⟨1024, [0x47, 0x45, 0x54, 0x20, 0x2F, 0x20], none⟩]⟩ ∧
      (delivered [⟨1024, [0x47, 0x45, 0x54, 0x20, 0x2F, 0x20], none⟩]).take 4
        ≠ ModbusHeaderBytes ∧
      GetModbusResponse scriptReader 4 (chunksScript [[0x47, 0x45, 0x54, 0x20, 0x2F, 0x20]]) =
        Run.returned ⟨⟨0, []⟩, some Error.notModbusResponse, [],
          [⟨1024, [0x47, 0x45, 0x54, 0x20, 0x2F, 0x20], none⟩]⟩ :=
  ⟨by decide, by decide,
    GetModbusResponse_header_rejection scriptReader 4
      (chunksScript [[0x47, 0x45, 0x54, 0x20, 0x2F, 0x20]])
      ⟨6, none, [0x47, 0x45, 0x54, 0x20, 0x2F, 0x20] ++ List.replicate 1018 0, [],
          [⟨1024, [0x47, 0x45, 0x54, 0x20, 0x2F, 0x20], none⟩]⟩ (by decide) rfl (by decide)⟩


/-! ## Decoding what was encoded -/

theorem scriptRead_fits (c : List UInt8) (e : Option IOErr) (rest : Script) (cap : Nat)
    (h : c.length ≤ cap) :
    (scriptReader.read ((c, e) :: rest) cap).1.data = c ∧
      (scriptReader.read ((c, e) :: rest) cap).1.err = e ∧
      (scriptReader.read ((c, e) :: rest) cap).2 = rest := by
  simp [scriptReader, scriptRead, h]

/-- A fill loop over a stream of error-free chunks that fit the buffer and hold
enough bytes returns without error, having consumed a prefix `pre` of the
chunks. -/
theorem fillLoop_chunks (ts : Error) (bytes : Int) :
    ∀ (cs : List (List UInt8)) (fuel : Nat) (res : List UInt8) (cnt : Nat)
      (log : List ReadEvent), cs.length ≤ fuel → cnt + cs.flatten.length ≤ res.length →
      bytes ≤ ((cnt + cs.flatten.length : Nat) : Int) →
      ∃ r pre post, fillLoop scriptReader ts bytes fuel (chunksScript cs) res cnt log
          = Run.returned r ∧ cs = pre ++ post ∧ r.err = none ∧
        r.state = chunksScript post ∧ r.cnt = cnt + pre.flatten.length ∧
        r.buf = writeAt res cnt pre.flatten ∧ r.log.length = log.length + pre.length ∧
        delivered r.log = delivered log ++ pre.flatten ∧
        bytes ≤ (r.cnt : Int) := by
  intro cs
  induction cs with
  | nil =>
    intro fuel res cnt log _ _ hb
    have hb' : ¬ ((cnt : Int) < bytes) := by
      simp only [List.flatten_nil, List.length_nil, Nat.add_zero] at hb
      omega
    refine ⟨⟨cnt, none, res, chunksScript [], log⟩, [], [], ?_, rfl, rfl, rfl, by simp,
      by simp [writeAt_nil], by simp, by simp, by show bytes ≤ (cnt : Int); omega⟩
    cases fuel <;> simp [fillLoop, hb']
  | cons c cs ih =>
    intro fuel res cnt log hf hfit hb
    by_cases hlt : (cnt : Int) < bytes
    · obtain ⟨fuel, rfl⟩ : ∃ k, fuel = k + 1 := by
        cases fuel with
        | zero => simp at hf
        | succ k => exact ⟨k, rfl⟩
      simp only [List.flatten_cons, List.length_append] at hfit hb
      have hc : c.length ≤ res.length - cnt := by omega
      obtain ⟨e1, e2, e3⟩ := scriptRead_fits c none (chunksScript cs) (res.length - cnt) hc
      have hlen : (writeAt res cnt c).length = res.length := writeAt_length _ _ _ (by omega)
      obtain ⟨r, pre, post, h1, h2, h3, h4, h5, h6, h7, h8, h9⟩ :=
        ih fuel (writeAt res cnt c) (cnt + c.length)
          (log ++ [⟨res.length - cnt, c, none⟩]) (by simpa using hf)
          (by rw [hlen]; omega) (by push_cast at hb ⊢; omega)
      refine ⟨r, c :: pre, post, ?_, by rw [h2]; rfl, h3, h4, ?_, ?_, ?_, ?_, h9⟩
      · rw [← h1]
        show fillLoop scriptReader ts bytes (fuel + 1) ((c, none) :: chunksScript cs) res cnt log = _
        simp only [fillLoop, if_pos hlt, e1, e2, e3]
      · rw [h5]; simp; omega
      · rw [h6, writeAt_writeAt _ _ _ _ (by omega)]; simp
      · rw [h7]; simp; omega
      · rw [h8]; simp [delivered_append, delivered]
    · refine ⟨⟨cnt, none, res, chunksScript (c :: cs), log⟩, [], c :: cs, ?_, rfl, rfl, rfl,
        by simp, by simp [writeAt_nil], by simp, by simp, by show bytes ≤ (cnt : Int); omega⟩
      cases fuel <;> simp [fillLoop, hlt]

theorem scratch_length : scratch.length = 1024 := by
  simp [scratch]

/-- C1. Decoding undoes encoding under any fragmentation: when the bytes of the
frame `MarshalBinary` builds for `f` and `d`, `len(d) + 8 ≤ 1024`, are cut into
chunks in any way (empty chunks allowed) and the chunks are delivered by
successive error-free reads, `GetModbusResponse` returns, within as many reads
as there are chunks, a nil error, `Function = f` and a `Data` whose first
`len(d)` bytes are `d`. -/
theorem GetModbusResponse_MarshalBinary (f : FunctionCode) (d : List UInt8)
    (chunks : List (List UInt8)) (fuel : Nat) (hd : d.length + 8 ≤ 1024)
    (hsplit : chunks.flatten = (MarshalBinary ⟨f, d⟩).1) (hfuel : chunks.length ≤ fuel) :
    ∃ r, GetModbusResponse scriptReader fuel (chunksScript chunks) = Run.returned r ∧
      r.err = none ∧ r.res.Function = f ∧ r.res.Data.take d.length = d := by
  have hlay := MarshalBinary_layout f d
  have hu : uint16 (d.length + 2) = d.length + 2 := by
    unfold uint16
    omega
  rw [← hsplit] at hlay
  have hlen : chunks.flatten.length = d.length + 8 := by
    rw [hlay]
    simp [ModbusHeaderBytes]
  -- the header
  obtain ⟨r1, pre, post, h1, h2, h3, h4, h5, h6, h7, -, h9⟩ :=
    fillLoop_chunks Error.responseBufferTooSmall 6 chunks fuel scratch 0 [] hfuel
      (by rw [scratch_length]; omega) (by omega)
  simp only [Nat.zero_add, List.length_nil] at h5 h7
  have hfl : chunks.flatten = pre.flatten ++ post.flatten := by
    rw [h2, List.flatten_append]
  have hlen2 : pre.flatten.length + post.flatten.length = d.length + 8 := by
    rw [← hlen, hfl, List.length_append]
  have hb1len : r1.buf.length = 1024 := by
    rw [h6, writeAt_length _ _ _ (by rw [scratch_length]; omega), scratch_length]
  obtain ⟨k, hk⟩ : ∃ k, pre.flatten.length = k + 6 := ⟨pre.flatten.length - 6, by omega⟩
  have hpre : pre.flatten = chunks.flatten.take (k + 6) := by
    rw [hfl, List.take_left' hk]
  have hb1 : r1.buf = pre.flatten ++ scratch.drop pre.flatten.length := by
    rw [h6]; simp [writeAt]
  have hb1' : ∃ tl, r1.buf = 0x13 :: 0x37 :: 0x00 :: 0x00 ::
      UInt8.ofNat ((d.length + 2) / 256) :: UInt8.ofNat (d.length + 2) :: tl := by
    rw [hb1, hpre, hlay, hu]
    exact ⟨_, by simp [ModbusHeaderBytes]; rfl⟩
  obtain ⟨tl, htl⟩ := hb1'
  have hdr : r1.buf.take 4 = ModbusHeaderBytes := by
    rw [htl]; rfl
  have hmsg : Uint16 r1.buf 4 = d.length + 2 := by
    rw [htl]
    simp only [Uint16, List.getD_cons_succ, List.getD_cons_zero, toNat_ofNat_byte]
    omega
  -- the rest of the frame
  obtain ⟨r2, pre2, post2, g1, g2, g3, g4, g5, g6, -, -, g9⟩ :=
    fillLoop_chunks Error.resporseBufferTooSmall (((Uint16 r1.buf 4 : Nat) : Int) + 6) post
      (fuel - r1.log.length) r1.buf r1.cnt r1.log
      (by rw [h7]; have := congrArg List.length h2; simp at this; omega)
      (by rw [h5, hb1len]; omega)
      (by rw [hmsg, h5]; push_cast; omega)
  rw [← h4] at g1
  have hfl2 : post.flatten = pre2.flatten ++ post2.flatten := by
    rw [g2, List.flatten_append]
  have hp2 : post2.flatten = [] := by
    apply List.eq_nil_of_length_eq_zero
    have := congrArg List.length hfl2
    rw [List.length_append] at this
    rw [hmsg, g5, h5] at g9
    push_cast at g9
    omega
  have hb2 : r2.buf = chunks.flatten ++ scratch.drop chunks.flatten.length := by
    rw [g6, h6, h5]
    have := writeAt_writeAt scratch 0 pre.flatten pre2.flatten (Nat.zero_le _)
    rw [Nat.zero_add] at this
    rw [this, hfl, hfl2, hp2]
    simp [writeAt]
  refine ⟨⟨⟨r2.buf.getD 7 0, r2.buf.drop 8⟩, none, r2.state, r2.log⟩, ?_, rfl, ?_, ?_⟩
  · simp only [GetModbusResponse, ReadMin, h1, h3, hdr, g1, g3]
    simp
  · show r2.buf.getD 7 0 = f
    rw [hb2, hlay]
    simp [ModbusHeaderBytes]
  · show (r2.buf.drop 8).take d.length = d
    rw [hb2, hlay]
    simp [ModbusHeaderBytes]

/-- C1, at the frame `13 37 00 00 00 04 00 03 AA BB` delivered in reads of 2, 3,
3 and 2 bytes. -/
theorem GetModbusResponse_MarshalBinary_witness :
    ([0xAA, 0xBB] : List UInt8).length + 8 ≤ 1024 ∧
      ([[0x13, 0x37], [0x00, 0x00, 0x00], [0x04, 0x00, 0x03], [0xAA, 0xBB]] :
          List (List UInt8)).flatten = (MarshalBinary ⟨0x03, [0xAA, 0xBB]⟩).1 ∧
      ∃ r, GetModbusResponse scriptReader 4
          (chunksScript [[0x13, 0x37], [0x00, 0x00, 0x00], [0x04, 0x00, 0x03], [0xAA, 0xBB]])
            = Run.returned r ∧
        r.err = none ∧ r.res.Function = 0x03 ∧
        r.res.Data.take ([0xAA, 0xBB] : List UInt8).length = [0xAA, 0xBB] :=
  ⟨by decide, by decide,
    GetModbusResponse_MarshalBinary 0x03 [0xAA, 0xBB]
      [[0x13, 0x37], [0x00, 0x00, 0x00], [0x04, 0x00, 0x03], [0xAA, 0xBB]] 4
      (by decide) (by decide) (by decide)⟩


/-! ## What a returned decode looks like -/

/-- The three ways in which `GetModbusResponse` returns after the header was
read without error. -/
theorem GetModbusResponse_after_header {σ : Type} (rd : Reader σ) (fuel : Nat) (s : σ)
    (r1 : LoopResult σ) (r : DecodeResult σ)
    (h1 : ReadMin rd fuel s scratch 6 = Run.returned r1) (hok : r1.err = none)
    (h : GetModbusResponse rd fuel s = Run.returned r) :
    (r1.buf.take 4 ≠ ModbusHeaderBytes ∧
        r = ⟨⟨0, []⟩, some Error.notModbusResponse, r1.state, r1.log⟩) ∨
      (r1.buf.take 4 = ModbusHeaderBytes ∧
        ∃ r2, fillLoop rd Error.resporseBufferTooSmall (((Uint16 r1.buf 4 : Nat) : Int) + 6)
            (fuel - r1.log.length) r1.state r1.buf r1.cnt r1.log = Run.returned r2 ∧
          ((∃ e, r2.err = some e ∧ r = ⟨⟨0, []⟩, some e, r2.state, r2.log⟩) ∨
            (r2.err = none ∧
              r = ⟨⟨r2.buf.getD 7 0, r2.buf.drop 8⟩, none, r2.state, r2.log⟩))) := by
  simp only [GetModbusResponse, h1, hok] at h
  by_cases hm : r1.buf.take 4 = ModbusHeaderBytes
  · right
    refine ⟨hm, ?_⟩
    simp only [hm, ne_eq, not_true_eq_false, if_false] at h
    split at h
    · cases h
    · rename_i r2 h2
      refine ⟨r2, h2, ?_⟩
      split at h
      · rename_i e he
        cases h
        exact Or.inl ⟨e, he, rfl⟩
      · rename_i he
        cases h
        exact Or.inr ⟨he, rfl⟩
  · left
    simp only [ne_eq, hm, not_false_eq_true, if_true] at h
    cases h
    exact ⟨hm, rfl⟩

/-- How `GetModbusResponse` returns, case by case. -/
theorem GetModbusResponse_returned {σ : Type} (rd : Reader σ) (fuel : Nat) (s : σ)
    (r : DecodeResult σ) (h : GetModbusResponse rd fuel s = Run.returned r) :
    ∃ r1, ReadMin rd fuel s scratch 6 = Run.returned r1 ∧
      ((∃ e, r1.err = some e ∧
          r = ⟨⟨0, []⟩, some (Error.couldNotGetResponse e), r1.state, r1.log⟩) ∨
        r1.err = none) := by
  cases h1 : ReadMin rd fuel s scratch 6 with
  | running lg => simp only [GetModbusResponse, h1] at h; cases h
  | returned r1 =>
    refine ⟨r1, rfl, ?_⟩
    cases he : r1.err with
    | none => exact Or.inr rfl
    | some e =>
      simp only [GetModbusResponse, h1, he] at h
      cases h
      exact Or.inl ⟨e, rfl, rfl⟩

/-- The second loop of `GetModbusResponse`, started where the header's `ReadMin`
stopped: its buffer and count in terms of all the bytes delivered. -/
theorem fillLoop_after_ReadMin {σ : Type} (rd : Reader σ) (fuel fuel2 : Nat) (s : σ)
    (bytes : Int) (ts : Error) (r1 r2 : LoopResult σ)
    (h1 : ReadMin rd fuel s scratch 6 = Run.returned r1)
    (h2 : fillLoop rd ts bytes fuel2 r1.state r1.buf r1.cnt r1.log = Run.returned r2) :
    r2.buf = delivered r2.log ++ List.replicate (1024 - (delivered r2.log).length) 0 ∧
      r2.cnt = (delivered r2.log).length ∧ r2.cnt ≤ 1024 ∧
      ∃ evs, r2.log = r1.log ++ evs ∧ (r2.err = none → bytes ≤ (r2.cnt : Int)) ∧
        (∀ e, r2.err = some e → ∃ ini last e0, evs = ini ++ [last] ∧
          (∀ ev ∈ ini, ev.err = none) ∧ last.err = some e0 ∧
          e = if 1024 ≤ r2.cnt then ts else Error.underlying e0) := by
  obtain ⟨evs1, a1, -, a3, a4, a5, -, -, -⟩ :=
    fillLoop_returned rd _ 6 fuel s scratch 0 [] r1 (Nat.zero_le _) h1
  simp only [List.nil_append] at a1
  subst a1
  simp only [Nat.zero_add] at a3
  have hlen1 : r1.buf.length = 1024 := by
    rw [a5, writeAt_length _ _ _ (by rw [Nat.zero_add, ← a3]; exact a4), scratch_length]
  obtain ⟨evs, b1, -, b3, b4, b5, -, b7, b8⟩ :=
    fillLoop_returned rd ts bytes fuel2 r1.state r1.buf r1.cnt r1.log r2
      (by rw [hlen1]; rw [scratch_length] at a4; exact a4) h2
  rw [hlen1] at b4 b8
  have hD : delivered r2.log = delivered r1.log ++ delivered evs := by
    rw [b1, delivered_append]
  have hc : r2.cnt = (delivered r2.log).length := by
    rw [b3, a3, hD, List.length_append]
  refine ⟨?_, hc, b4, evs, b1, fun hok => (b7 hok).1, b8⟩
  rw [b5, a5, a3]
  have := writeAt_writeAt scratch 0 (delivered r1.log) (delivered evs) (Nat.zero_le _)
  rw [Nat.zero_add] at this
  rw [this, ← hD]
  simp only [writeAt, List.take_zero, List.nil_append, Nat.zero_add, scratch,
    List.drop_replicate]

/-! ## Extent of the decoded payload -/

/-- C6, as stated, fails: for the frame `13 37 00 00 00 04 00 03 AA BB`
delivered in one read, `GetModbusResponse` succeeds having read 10 bytes, and
`Data` has 1016 bytes, not `10 - 8 = 2`. -/
theorem GetModbusResponse_data_not_clipped :
    ∃ r, GetModbusResponse scriptReader 1 (chunksScript [sampleFrame]) = Run.returned r ∧
      r.err = none ∧ (delivered r.log).length = 10 ∧ r.res.Data.length = 1016 ∧
      r.res.Data.length ≠ (delivered r.log).length - 8 :=
  ⟨⟨⟨0x03, [0xAA, 0xBB] ++ List.replicate 1014 0⟩, none, [], [⟨1024, sampleFrame, none⟩]⟩,
    by decide, rfl, by decide, by decide, by decide⟩

/-- C6, amended. Whenever `GetModbusResponse` succeeds, the stream has delivered
at most 1024 bytes; with the scratch buffer being these bytes followed by zeros
up to 1024, `Function` is its byte at offset 7 and `Data` is its range from
offset 8 to its end, 1016 bytes whatever number of bytes was read. -/
theorem GetModbusResponse_payload_extent {σ : Type} (rd : Reader σ) (fuel : Nat) (s : σ)
    (r : DecodeResult σ) (h : GetModbusResponse rd fuel s = Run.returned r)
    (hok : r.err = none) :
    (delivered r.log).length ≤ 1024 ∧
      r.res.Function =
        (delivered r.log ++ List.replicate (1024 - (delivered r.log).length) 0).getD 7 0 ∧
      r.res.Data =
        (delivered r.log ++ List.replicate (1024 - (delivered r.log).length) 0).drop 8 ∧
      r.res.Data.length = 1016 := by
  obtain ⟨r1, h1, hcase⟩ := GetModbusResponse_returned rd fuel s r h
  rcases hcase with ⟨e, -, rfl⟩ | hok1
  · cases hok
  rcases GetModbusResponse_after_header rd fuel s r1 r h1 hok1 h with ⟨-, rfl⟩ | ⟨-, r2, h2, hc⟩
  · cases hok
  rcases hc with ⟨e, -, rfl⟩ | ⟨-, rfl⟩
  · cases hok
  obtain ⟨hb, hcnt, hle, -⟩ := fillLoop_after_ReadMin rd fuel _ s _ _ r1 r2 h1 h2
  have hle' : (delivered r2.log).length ≤ 1024 := by omega
  refine ⟨hle', ?_, ?_, ?_⟩
  · show r2.buf.getD 7 0 = _
    rw [← hb]
  · show r2.buf.drop 8 = _
    rw [← hb]
  · show (r2.buf.drop 8).length = 1016
    rw [hb]
    simp only [List.length_drop, List.length_append, List.length_replicate]
    omega

/-- C6 amended, at the frame `13 37 00 00 00 04 00 03 AA BB` delivered in reads
of 6 and 4 bytes. -/
theorem GetModbusResponse_payload_extent_witness :
    GetModbusResponse scriptReader 2
        (chunksScript [[0x13, 0x37, 0x00, 0x00, 0x00, 0x04], [0x00, 0x03, 0xAA, 0xBB]])
      = Run.returned ⟨⟨0x03, [0xAA, 0xBB] ++ List.replicate 1014 0⟩, none, [],
          [⟨1024, [0x13, 0x37, 0x00, 0x00, 0x00, 0x04], none⟩,
            ⟨1018, [0x00, 0x03, 0xAA, 0xBB], none⟩]⟩ ∧
      (delivered [⟨1024, [0x13, 0x37, 0x00, 0x00, 0x00, 0x04], none⟩,
            ⟨1018, [0x00, 0x03, 0xAA, 0xBB], none⟩]).length ≤ 1024 ∧
      (0x03 : UInt8) = (delivered [⟨1024, [0x13, 0x37, 0x00, 0x00, 0x00, 0x04], none⟩,
            ⟨1018, [0x00, 0x03, 0xAA, 0xBB], none⟩] ++ List.replicate (1024 -
          (delivered [⟨1024, [0x13, 0x37, 0x00, 0x00, 0x00, 0x04], none⟩,
            ⟨1018, [0x00, 0x03, 0xAA, 0xBB], none⟩]).length) 0).getD 7 0 ∧
      ([0xAA, 0xBB] ++ List.replicate 1014 0 : List UInt8) =
        (delivered [⟨1024, [0x13, 0x37, 0x00, 0x00, 0x00, 0x04], none⟩,
            ⟨1018, [0x00, 0x03, 0xAA, 0xBB], none⟩] ++ List.replicate (1024 -
          (delivered [⟨1024, [0x13, 0x37, 0x00, 0x00, 0x00, 0x04], none⟩,
            ⟨1018, [0x00, 0x03, 0xAA, 0xBB], none⟩]).length) 0).drop 8 ∧
      ([0xAA, 0xBB] ++ List.replicate 1014 0 : List UInt8).length = 1016 :=
  ⟨by decide,
    GetModbusResponse_payload_extent scriptReader 2
      (chunksScript [[0x13, 0x37, 0x00, 0x00, 0x00, 0x04], [0x00, 0x03, 0xAA, 0xBB]])
      ⟨⟨0x03, [0xAA, 0xBB] ++ List.replicate 1014 0⟩, none, [],
          [⟨1024, [0x13, 0x37, 0x00, 0x00, 0x00, 0x04], none⟩,
            ⟨1018, [0x00, 0x03, 0xAA, 0xBB], none⟩]⟩ (by decide) rfl⟩

/-! ## Declared lengths beyond the scratch buffer -/

/-- C7, as stated, fails: a stream that delivers the header `13 37 00 00 07 D0`
(declared length 2000, and 6 + 2000 > 1024) and then ends makes
`GetModbusResponse` return the stream's `io.EOF`, not a buffer-too-small
error. -/
theorem GetModbusResponse_oversized_eof :
    Uint16 [0x13, 0x37, 0x00, 0x00, 0x07, 0xD0] 4 = 2000 ∧
      GetModbusResponse scriptReader 2 (chunksScript [[0x13, 0x37, 0x00, 0x00, 0x07, 0xD0]])
        = Run.returned ⟨⟨0, []⟩, some (Error.underlying IOErr.eof), [],
            [⟨1024, [0x13, 0x37, 0x00, 0x00, 0x07, 0xD0], none⟩, ⟨1018, [], some IOErr.eof⟩]⟩ ∧
      Error.underlying IOErr.eof ≠ Error.resporseBufferTooSmall ∧
      Error.underlying IOErr.eof ≠ Error.responseBufferTooSmall := by
  refine ⟨by decide, by decide, by decide, by decide⟩

/-- C7, amended. When the header was read without error and carries the marker
and a declared length `L` with `6 + L > 1024`, `GetModbusResponse` never returns
a success: whenever it returns, it returns the zero response and an error, the
read that returned an error is the last one it issued, and the error is
"modbus: resporse buffer too small" when 1024 bytes have been read by then and
the error of that read otherwise. -/
theorem GetModbusResponse_oversized {σ : Type} (rd : Reader σ) (fuel : Nat) (s : σ)
    (r1 : LoopResult σ) (r : DecodeResult σ)
    (h1 : ReadMin rd fuel s scratch 6 = Run.returned r1) (hok : r1.err = none)
    (hm : r1.buf.take 4 = ModbusHeaderBytes) (hL : 1024 < 6 + Uint16 r1.buf 4)
    (h : GetModbusResponse rd fuel s = Run.returned r) :
    r.res = ⟨0, []⟩ ∧
      ∃ ini last e0, r.log = r1.log ++ ini ++ [last] ∧ (∀ ev ∈ ini, ev.err = none) ∧
        last.err = some e0 ∧
        r.err = some (if (delivered r.log).length = 1024 then Error.resporseBufferTooSmall
          else Error.underlying e0) := by
  rcases GetModbusResponse_after_header rd fuel s r1 r h1 hok h with ⟨hne, -⟩ | ⟨-, r2, h2, hc⟩
  · exact absurd hm hne
  obtain ⟨-, hcnt, hle, evs, hlog, hsucc, hfail⟩ :=
    fillLoop_after_ReadMin rd fuel _ s _ _ r1 r2 h1 h2
  rcases hc with ⟨e, he, rfl⟩ | ⟨he, -⟩
  · obtain ⟨ini, last, e0, hevs, hini, hlast, hee⟩ := hfail e he
    refine ⟨rfl, ini, last, e0, ?_, hini, hlast, ?_⟩
    · show r2.log = _
      rw [hlog, hevs, List.append_assoc]
    · show some e = _
      rw [hee, ← hcnt]
      by_cases hfull : r2.cnt = 1024
      · rw [if_pos (by omega), if_pos hfull]
      · rw [if_neg (by omega), if_neg hfull]
  · have := hsucc he
    push_cast at this
    omega

/-- C7 amended, at a stream that delivers the header `13 37 00 00 07 D0` and
then the 1018 bytes that fill the scratch buffer, the last of them together
with `io.EOF`. -/
theorem GetModbusResponse_oversized_witness :
    ReadMin scriptReader 2
        [([0x13, 0x37, 0x00, 0x00, 0x07, 0xD0], none), (List.replicate 1018 0x55, some IOErr.eof)]
        scratch 6
      = Run.returned ⟨6, none, [0x13, 0x37, 0x00, 0x00, 0x07, 0xD0] ++ List.replicate 1018 0,
          [(List.replicate 1018 0x55, some IOErr.eof)],
          [⟨1024, [0x13, 0x37, 0x00, 0x00, 0x07, 0xD0], none⟩]⟩ ∧
      1024 < 6 + Uint16 ([0x13, 0x37, 0x00, 0x00, 0x07, 0xD0] ++ List.replicate 1018 0) 4 ∧
      GetModbusResponse scriptReader 2
        [([0x13, 0x37, 0x00, 0x00, 0x07, 0xD0], none), (List.replicate 1018 0x55, some IOErr.eof)]
        = Run.returned ⟨⟨0, []⟩, some Error.resporseBufferTooSmall, [],
            [⟨1024, [0x13, 0x37, 0x00, 0x00, 0x07, 0xD0], none⟩,
              ⟨1018, List.replicate 1018 0x55, some IOErr.eof⟩]⟩ ∧
      ((⟨0, []⟩ : ModbusResponse) = ⟨0, []⟩ ∧
        ∃ (ini : List ReadEvent) (last : ReadEvent) (e0 : IOErr),
          ([⟨1024, [0x13, 0x37, 0x00, 0x00, 0x07, 0xD0], none⟩,
              ⟨1018, List.replicate 1018 0x55, some IOErr.eof⟩] : List ReadEvent)
            = [⟨1024, [0x13, 0x37, 0x00, 0x00, 0x07, 0xD0], none⟩] ++ ini ++ [last] ∧
          (∀ ev ∈ ini, ev.err = none) ∧ last.err = some e0 ∧
          some Error.resporseBufferTooSmall =
            some (if (delivered [⟨1024, [0x13, 0x37, 0x00, 0x00, 0x07, 0xD0], none⟩,
                ⟨1018, List.replicate 1018 0x55, some IOErr.eof⟩]).length = 1024
              then Error.resporseBufferTooSmall else Error.underlying e0)) :=
  ⟨by decide, by decide, by decide,
    GetModbusResponse_oversized scriptReader 2
      [([0x13, 0x37, 0x00, 0x00, 0x07, 0xD0], none), (List.replicate 1018 0x55, some IOErr.eof)]
      ⟨6, none, [0x13, 0x37, 0x00, 0x00, 0x07, 0xD0] ++ List.replicate 1018 0,
          [(List.replicate 1018 0x55, some IOErr.eof)],
          [⟨1024, [0x13, 0x37, 0x00, 0x00, 0x07, 0xD0], none⟩]⟩
      ⟨⟨0, []⟩, some Error.resporseBufferTooSmall, [],
            [⟨1024, [0x13, 0x37, 0x00, 0x00, 0x07, 0xD0], none⟩,
              ⟨1018, List.replicate 1018 0x55, some IOErr.eof⟩]⟩
      (by decide) rfl (by decide) (by decide) (by decide)⟩

/-! ## A full buffer -/

/-- On a stream that answers a read into an empty slice with `0, nil`, a fill
loop whose buffer is full and whose count is below the required one uses up
every bound on its reads. -/
theorem fillLoop_full_spins (ts : Error) (bytes : Int) :
    ∀ (k : Nat) (s : Script) (res : List UInt8) (log : List ReadEvent),
      (res.length : Int) < bytes →
      fillLoop netReader ts bytes k s res res.length log
        = Run.running (log ++ List.replicate k ⟨0, [], none⟩) := by
  intro k
  induction k with
  | zero =>
    intro s res log hlt
    simp [fillLoop, hlt]
  | succ k ih =>
    intro s res log hlt
    have hstep : fillLoop netReader ts bytes (k + 1) s res res.length log
        = fillLoop netReader ts bytes k s res res.length (log ++ [⟨0, [], none⟩]) := by
      simp [fillLoop, hlt, netReader, netRead, writeAt_nil]
    rw [hstep, ih s res _ hlt, List.replicate_succ, List.append_assoc]
    rfl

/-- C8, the failing input. The buffer has 4 bytes, 6 are required, and the
stream delivers 4 bytes and from then on answers the reads into the empty rest
of the buffer with `0, nil`, as a `net.Conn` does: whatever number of reads is
allowed, `ReadMin` uses them all and has not returned, so it never returns the
"modbus: response buffer too small" error. -/
theorem ReadMin_full_buffer_spins :
    ∀ fuel : Nat, ∃ log, ReadMin netReader fuel [([1, 2, 3, 4], none)] (List.replicate 4 0) 6
      = Run.running log ∧ log.length = fuel := by
  intro fuel
  cases fuel with
  | zero => exact ⟨[], by decide, rfl⟩
  | succ k =>
    have hstep : ReadMin netReader (k + 1) [([1, 2, 3, 4], none)] (List.replicate 4 0) 6
        = fillLoop netReader Error.responseBufferTooSmall 6 k [] [1, 2, 3, 4]
            ([1, 2, 3, 4] : List UInt8).length [⟨4, [1, 2, 3, 4], none⟩] := by
      simp [ReadMin, fillLoop, netReader, netRead, scriptRead, writeAt]
    rw [hstep, fillLoop_full_spins _ _ k [] [1, 2, 3, 4] _ (by decide)]
    exact ⟨_, rfl, by simp⟩

/-! ## Errors of the stream -/

/-- C9, as stated, fails: the buffer has 4 bytes, 6 are required, and the stream
delivers 4 bytes together with `io.EOF`; `ReadMin` returns
"modbus: response buffer too small" in place of the stream's error. -/
theorem ReadMin_error_replaced :
    ReadMin scriptReader 3 [([1, 2, 3, 4], some IOErr.eof)] (List.replicate 4 0) 6
        = Run.returned ⟨4, some Error.responseBufferTooSmall, [1, 2, 3, 4], [],
            [⟨4, [1, 2, 3, 4], some IOErr.eof⟩]⟩ ∧
      Error.responseBufferTooSmall ≠ Error.underlying IOErr.eof := by
  refine ⟨by decide, by decide⟩

/-- C9, amended. If one of the reads issued by `ReadMin` returns an error `e`,
then `ReadMin` has returned, that read is the last one it issued, and the error
it returns is `e` when the count is then below `len(res)` and
"modbus: response buffer too small" when the buffer is full. -/
theorem ReadMin_error_is_final {σ : Type} (rd : Reader σ) (fuel : Nat) (s : σ)
    (res : List UInt8) (n : Int) (i : Nat) (ev : ReadEvent) (e : IOErr)
    (hev : (readsOf (ReadMin rd fuel s res n))[i]? = some ev) (herr : ev.err = some e) :
    ∃ r, ReadMin rd fuel s res n = Run.returned r ∧ i + 1 = r.log.length ∧
      r.err = some (if res.length ≤ r.cnt then Error.responseBufferTooSmall
        else Error.underlying e) := by
  have hmem : ev ∈ readsOf (ReadMin rd fuel s res n) := List.getElem?_mem hev
  cases hrun : ReadMin rd fuel s res n with
  | running lg =>
    rw [hrun] at hmem
    obtain ⟨evs, h1, -, h3, -, -⟩ :=
      fillLoop_running rd _ n fuel s res 0 [] lg (Nat.zero_le _) hrun
    simp only [List.nil_append] at h1
    subst h1
    have := h3 ev hmem
    rw [herr] at this
    cases this
  | returned r =>
    rw [hrun] at hmem hev
    simp only [readsOf] at hmem hev
    obtain ⟨evs, h1, -, -, -, -, -, h7, h8⟩ :=
      fillLoop_returned rd _ n fuel s res 0 [] r (Nat.zero_le _) hrun
    simp only [List.nil_append] at h1
    subst h1
    refine ⟨r, rfl, ?_⟩
    cases hre : r.err with
    | none =>
      have := (h7 hre).2.1 ev hmem
      rw [herr] at this
      cases this
    | some e1 =>
      obtain ⟨ini, last, e0, hlog, hini, hlast, hee⟩ := h8 e1 hre
      rw [hlog] at hev
      have hi : ¬ i < ini.length := by
        intro hlt
        rw [List.getElem?_append_left hlt] at hev
        have := hini ev (List.getElem?_mem hev)
        rw [herr] at this
        cases this
      have hi2 : i < (ini ++ [last]).length := by
        rcases List.getElem?_eq_some.mp hev with ⟨hlt, -⟩
        exact hlt
      simp only [List.length_append, List.length_singleton] at hi2
      have hieq : i = ini.length := by omega
      subst hieq
      simp only [List.getElem?_concat_length, Option.some.injEq] at hev
      subst hev
      rw [hlast] at herr
      cases herr
      refine ⟨by rw [hlog]; simp, ?_⟩
      rw [hee]

/-- C9 amended, at a stream that delivers 2 bytes and then `io.EOF`, read into a
buffer of 8 bytes of which 6 are required. -/
theorem ReadMin_error_is_final_witness :
    (readsOf (ReadMin scriptReader 5 (chunksScript [[1, 2]]) (List.replicate 8 0) 6))[1]?
        = some ⟨6, [], some IOErr.eof⟩ ∧
      ∃ r, ReadMin scriptReader 5 (chunksScript [[1, 2]]) (List.replicate 8 0) 6
          = Run.returned r ∧ 1 + 1 = r.log.length ∧
        r.err = some (if (List.replicate 8 (0 : UInt8)).length ≤ r.cnt
          then Error.responseBufferTooSmall else Error.underlying IOErr.eof) :=
  ⟨by decide,
    ReadMin_error_is_final scriptReader 5 (chunksScript [[1, 2]]) (List.replicate 8 0) 6 1
      ⟨6, [], some IOErr.eof⟩ IOErr.eof (by decide) rfl⟩

/-! ## The count returned -/

/-- C10, as stated, fails: 6 bytes are required, the buffer has 1024, and the
stream delivers the 10 bytes of a frame in one read; `ReadMin` succeeds with
count 10, four bytes beyond the 6 requested. -/
theorem ReadMin_reads_past_count :
    ReadMin scriptReader 1 (chunksScript [sampleFrame]) scratch 6
        = Run.returned ⟨10, none, sampleFrame ++ List.replicate 1014 0, [],
            [⟨1024, sampleFrame, none⟩]⟩ ∧
      ((10 : Nat) : Int) ≠ 6 := by
  refine ⟨by decide, by decide⟩

/-- C10, amended. A successful `ReadMin(res, n)` with `n ≥ 0` returns a count
between `n` and `len(res)`, which is the number of bytes taken from the stream;
the count is exactly `n` when `len(res) = n`, and when no read delivers more
than one byte. -/
theorem ReadMin_count_bounds {σ : Type} (rd : Reader σ) (fuel : Nat) (s : σ)
    (res : List UInt8) (n : Int) (r : LoopResult σ) (hn : 0 ≤ n)
    (h : ReadMin rd fuel s res n = Run.returned r) (hok : r.err = none) :
    n ≤ (r.cnt : Int) ∧ r.cnt ≤ res.length ∧ r.cnt = (delivered r.log).length ∧
      ((res.length : Int) = n → (r.cnt : Int) = n) ∧
      ((∀ ev ∈ r.log, ev.data.length ≤ 1) → (r.cnt : Int) = n) := by
  obtain ⟨evs, h1, -, h3, h4, -, -, h7, -⟩ :=
    fillLoop_returned rd _ n fuel s res 0 [] r (Nat.zero_le _) h
  simp only [List.nil_append] at h1
  subst h1
  simp only [Nat.zero_add] at h3
  obtain ⟨hge, -, hlast⟩ := h7 hok
  refine ⟨hge, h4, h3, ?_, ?_⟩
  · intro hlen
    omega
  · intro hone
    rcases hlast with hnil | ⟨ini, last, hlog, hlt⟩
    · rw [hnil] at h3
      simp only [delivered, List.length_nil] at h3
      omega
    · have hl : last.data.length ≤ 1 := hone last (by rw [hlog]; simp)
      rw [hlog, delivered_append, delivered_singleton, List.length_append] at h3
      simp only [Nat.zero_add] at hlt
      omega

/-- C10 amended, at a stream that delivers 1, 2, 3 one byte per read into a
buffer of 8 bytes of which 3 are required. -/
theorem ReadMin_count_bounds_witness :
    (0 : Int) ≤ 3 ∧
      ReadMin scriptReader 3 (chunksScript [[1], [2], [3]]) (List.replicate 8 0) 3
        = Run.returned ⟨3, none, [1, 2, 3, 0, 0, 0, 0, 0], [],
            [⟨8, [1], none⟩, ⟨7, [2], none⟩, ⟨6, [3], none⟩]⟩ ∧
      ((3 : Int) ≤ ((3 : Nat) : Int) ∧ 3 ≤ (List.replicate 8 (0 : UInt8)).length ∧
        3 = (delivered [⟨8, [1], none⟩, ⟨7, [2], none⟩, ⟨6, [3], none⟩]).length ∧
        ((((List.replicate 8 (0 : UInt8)).length : Nat) : Int) = 3 → ((3 : Nat) : Int) = 3) ∧
        ((∀ ev ∈ ([⟨8, [1], none⟩, ⟨7, [2], none⟩, ⟨6, [3], none⟩] : List ReadEvent),
          ev.data.length ≤ 1) → ((3 : Nat) : Int) = 3)) :=
  ⟨by decide, by decide,
    ReadMin_count_bounds scriptReader 3 (chunksScript [[1], [2], [3]]) (List.replicate 8 0) 3
      ⟨3, none, [1, 2, 3, 0, 0, 0, 0, 0], [],
        [⟨8, [1], none⟩, ⟨7, [2], none⟩, ⟨6, [3], none⟩]⟩ (by decide) (by decide) rfl⟩


/-! ## Function codes -/

set_option maxRecDepth 1000000

/-- A property of bytes holds of every byte when it holds of the 256 values. -/
theorem forall_byte (P : UInt8 → Prop) (h : ∀ v : Fin 256, P (UInt8.ofNat v.val)) :
    ∀ c : UInt8, P c := by
  intro c
  have hc : UInt8.ofNat c.toNat = c := by
    apply UInt8.eq_of_val_eq
    apply Fin.ext
    show c.toNat % 256 = c.toNat
    exact Nat.mod_eq_of_lt c.val.isLt
  rw [← hc]
  exact h ⟨c.toNat, c.val.isLt⟩

/-- C11. For every function code `c`, `c.IsException()` is true exactly when bit
`0x80` of `c` is set, which is exactly when `c ≥ 0x80` as an unsigned byte. -/
theorem IsException_iff (c : FunctionCode) :
    (FunctionCode.IsException c = true ↔ c.toNat.testBit 7 = true) ∧
      (FunctionCode.IsException c = true ↔ 0x80 ≤ c.toNat) := by
  revert c
  apply forall_byte
  decide

/-- C12. For every function code `c`, `c.ExceptionFunctionCode()` is `c OR 0x80`
(so `0x03` maps to `0x83`): it has bit `0x80` set, it reads as an exception when
seen as a function code, and its low seven bits are those of `c`. -/
theorem ExceptionFunctionCode_sets_flag (c : FunctionCode) :
    FunctionCode.ExceptionFunctionCode c = c ||| 0x80 ∧
      FunctionCode.ExceptionFunctionCode 0x03 = 0x83 ∧
      (FunctionCode.ExceptionFunctionCode c).toNat.testBit 7 = true ∧
      (FunctionCode.ExceptionFunctionCode c).toNat = c.toNat % 128 + 128 ∧
      FunctionCode.IsException (FunctionCode.ExceptionFunctionCode c) = true ∧
      FunctionCode.ExceptionFunctionCode c &&& 0x7F = c &&& 0x7F := by
  revert c
  apply forall_byte
  decide

/-- C13. For every exception function code `e`, `e.FunctionCode()` is
`e AND 0x79`, the byte that keeps bits 0, 3, 4, 5 and 6 of `e`; for `0x83` it is
`0x01`, not `0x03`. -/
theorem FunctionCode_mask (e : ExceptionFunctionCode) :
    ExceptionFunctionCode.FunctionCode e = e &&& 0x79 ∧
      (ExceptionFunctionCode.FunctionCode e).toNat = e.toNat % 2 + e.toNat / 8 % 16 * 8 ∧
      ExceptionFunctionCode.FunctionCode 0x83 = 0x01 ∧
      ExceptionFunctionCode.FunctionCode 0x83 ≠ 0x03 := by
  revert e
  apply forall_byte
  decide

/-- C14. Stripping clears the exception flag: for each of the 256 exception
function codes `e`, `e.FunctionCode().IsException()` is false. -/
theorem FunctionCode_not_exception (e : ExceptionFunctionCode) :
    FunctionCode.IsException (ExceptionFunctionCode.FunctionCode e) = false := by
  revert e
  apply forall_byte
  decide

/-- C15. The mask does not undo the flag: for every function code `c`,
`c.ExceptionFunctionCode().FunctionCode() = c` holds exactly when
`c AND 0x86 = 0`; the round trip fails for codes without the exception flag,
among them `ModbusFunctionEncapsulatedInterface = 0x2B`, which comes back as
`0x29`. -/
theorem exception_round_trip_iff (c : FunctionCode) :
    (ExceptionFunctionCode.FunctionCode (FunctionCode.ExceptionFunctionCode c) = c ↔
        c &&& 0x86 = 0) ∧
      ModbusFunctionEncapsulatedInterface = 0x2B ∧
      FunctionCode.IsException ModbusFunctionEncapsulatedInterface = false ∧
      ExceptionFunctionCode.FunctionCode
        (FunctionCode.ExceptionFunctionCode ModbusFunctionEncapsulatedInterface) = 0x29 ∧
      ExceptionFunctionCode.FunctionCode
        (FunctionCode.ExceptionFunctionCode ModbusFunctionEncapsulatedInterface)
          ≠ ModbusFunctionEncapsulatedInterface := by
  revert c
  apply forall_byte
  decide

/-! ## Payloads beyond the length field -/

/-- C18. For a payload of more than 65533 bytes `MarshalBinary` still returns a
nil error and a frame of `8 + len(d)` bytes; its length field holds
`(len(d) + 2) mod 65536`, which differs from `len(d) + 2`, and is 0 when
`len(d) = 65534`. -/
theorem MarshalBinary_wraps (f : FunctionCode) (d : List UInt8) (hd : 65533 < d.length) :
    (MarshalBinary ⟨f, d⟩).2 = none ∧
      (MarshalBinary ⟨f, d⟩).1.length = 8 + d.length ∧
      Uint16 (MarshalBinary ⟨f, d⟩).1 4 = (d.length + 2) % 65536 ∧
      Uint16 (MarshalBinary ⟨f, d⟩).1 4 ≠ d.length + 2 ∧
      (d.length = 65534 → Uint16 (MarshalBinary ⟨f, d⟩).1 4 = 0) := by
  have hf := MarshalBinary_length_field f d
  refine ⟨rfl, ?_, hf, ?_, ?_⟩
  · rw [MarshalBinary_layout]
    simp [ModbusHeaderBytes]
    omega
  · rw [hf]
    omega
  · intro h
    rw [hf, h]

/-- C18, at the payload of 65534 zero bytes. -/
theorem MarshalBinary_wraps_witness :
    65533 < (List.replicate 65534 (0 : UInt8)).length ∧
      ((MarshalBinary ⟨0x03, List.replicate 65534 0⟩).2 = none ∧
        (MarshalBinary ⟨0x03, List.replicate 65534 0⟩).1.length
          = 8 + (List.replicate 65534 (0 : UInt8)).length ∧
        Uint16 (MarshalBinary ⟨0x03, List.replicate 65534 0⟩).1 4
          = ((List.replicate 65534 (0 : UInt8)).length + 2) % 65536 ∧
        Uint16 (MarshalBinary ⟨0x03, List.replicate 65534 0⟩).1 4
          ≠ (List.replicate 65534 (0 : UInt8)).length + 2 ∧
        ((List.replicate 65534 (0 : UInt8)).length = 65534 →
          Uint16 (MarshalBinary ⟨0x03, List.replicate 65534 0⟩).1 4 = 0)) :=
  ⟨by rw [List.length_replicate]; omega,
    MarshalBinary_wraps 0x03 (List.replicate 65534 0) (by rw [List.length_replicate]; omega)⟩

/-! ## Frames shorter than their fixed part -/

/-- A fill loop whose count has reached the required one returns at once,
without a read. -/
theorem fillLoop_done {σ : Type} (rd : Reader σ) (ts : Error) (bytes : Int) (fuel : Nat)
    (s : σ) (res : List UInt8) (cnt : Nat) (log : List ReadEvent)
    (h : ¬ ((cnt : Int) < bytes)) :
    fillLoop rd ts bytes fuel s res cnt log = Run.returned ⟨cnt, none, res, s, log⟩ := by
  cases fuel <;> simp [fillLoop, h]

theorem getD_replicate_zero (n i : Nat) : (List.replicate n (0 : UInt8)).getD i 0 = 0 := by
  rw [List.getD_eq_getElem?_getD, List.getElem?_replicate]
  split <;> rfl

/-- C19. When the header's `ReadMin` returns without error having read fewer
than 8 bytes, the header carries the marker and the declared length `L` is
covered by the bytes read (so `L < 2`; `L = 0` when exactly the 6 header bytes
were read), `GetModbusResponse` issues no further read and returns a nil error
with `Function = 0x00` and a `Data` of 1016 zero bytes, both taken from the
zero-initialised scratch buffer and not from the stream. -/
theorem GetModbusResponse_under_length {σ : Type} (rd : Reader σ) (fuel : Nat) (s : σ)
    (r1 : LoopResult σ) (h1 : ReadMin rd fuel s scratch 6 = Run.returned r1)
    (hok : r1.err = none) (hm : r1.buf.take 4 = ModbusHeaderBytes)
    (hL : Uint16 r1.buf 4 + 6 ≤ r1.cnt) (hshort : r1.cnt < 8) :
    GetModbusResponse rd fuel s
        = Run.returned ⟨⟨0x00, List.replicate 1016 0⟩, none, r1.state, r1.log⟩ ∧
      (delivered r1.log).length < 8 ∧ Uint16 r1.buf 4 < 2 := by
  obtain ⟨hb, hc, -, -, hn⟩ := ReadMin_returned_buf rd fuel s scratch 6 r1 h1
  have h6 : 6 ≤ (delivered r1.log).length := by
    have := hn hok
    omega
  have hlt : (delivered r1.log).length < 8 := by omega
  have hdone : ¬ ((r1.cnt : Int) < ((Uint16 r1.buf 4 : Nat) : Int) + 6) := by
    omega
  have hfn : r1.buf.getD 7 0 = 0 := by
    rw [hb, List.getD_append_right _ _ _ _ (by omega), scratch, List.drop_replicate,
      getD_replicate_zero]
  have hdata : r1.buf.drop 8 = List.replicate 1016 0 := by
    rw [hb, List.drop_append_eq_append_drop, List.drop_eq_nil_of_le (by omega), scratch,
      List.drop_replicate, List.drop_replicate, List.nil_append]
    congr 1
    omega
  refine ⟨?_, hlt, by omega⟩
  simp only [GetModbusResponse, h1, hok, hm, ne_eq, not_true_eq_false, if_false,
    fillLoop_done rd _ _ _ _ _ _ _ hdone, hfn, hdata]

/-- C19, at a stream that delivers exactly the 6 bytes `13 37 00 00 00 00`: the
marker and a declared length of 0. -/
theorem GetModbusResponse_under_length_witness :
    ReadMin scriptReader 1 (chunksScript [[0x13, 0x37, 0x00, 0x00, 0x00, 0x00]]) scratch 6
      = Run.returned ⟨6, none, [0x13, 0x37, 0x00, 0x00, 0x00, 0x00] ++ List.replicate 1018 0, [],
          [⟨1024, [0x13, 0x37, 0x00, 0x00, 0x00, 0x00], none⟩]⟩ ∧
      Uint16 ([0x13, 0x37, 0x00, 0x00, 0x00, 0x00] ++ List.replicate 1018 0) 4 + 6 ≤ 6 ∧
      (GetModbusResponse scriptReader 1 (chunksScript [[0x13, 0x37, 0x00, 0x00, 0x00, 0x00]])
          = Run.returned ⟨⟨0x00, List.replicate 1016 0⟩, none, [],
              [⟨1024, [0x13, 0x37, 0x00, 0x00, 0x00, 0x00], none⟩]⟩ ∧
        (delivered [⟨1024, [0x13, 0x37, 0x00, 0x00, 0x00, 0x00], none⟩]).length < 8 ∧
        Uint16 ([0x13, 0x37, 0x00, 0x00, 0x00, 0x00] ++ List.replicate 1018 0) 4 < 2) :=
  ⟨by decide, by decide,
    GetModbusResponse_under_length scriptReader 1
      (chunksScript [[0x13, 0x37, 0x00, 0x00, 0x00, 0x00]])
      ⟨6, none, [0x13, 0x37, 0x00, 0x00, 0x00, 0x00] ++ List.replicate 1018 0, [],
          [⟨1024, [0x13, 0x37, 0x00, 0x00, 0x00, 0x00], none⟩]⟩
      (by decide) rfl (by decide) (by decide) (by decide)⟩

/-! ## All or nothing -/

theorem Uint16_append (a b : List UInt8) (h : 6 ≤ a.length) :
    Uint16 (a ++ b) 4 = Uint16 a 4 := by
  unfold Uint16
  rw [List.getD_append _ _ _ _ (by omega), List.getD_append _ _ _ _ (by omega)]

/-- C16. Whenever `GetModbusResponse` returns, either it returns an error
together with the zero response (`Function` 0, `Data` nil), or it returns a nil
error, and then the first 4 bytes read are the marker and at least `6 + L` bytes
have been read, `L` being the big-endian value of bytes 4 and 5 read. -/
theorem GetModbusResponse_all_or_nothing {σ : Type} (rd : Reader σ) (fuel : Nat) (s : σ)
    (r : DecodeResult σ) (h : GetModbusResponse rd fuel s = Run.returned r) :
    (r.err ≠ none ∧ r.res = ⟨0, []⟩) ∨
      (r.err = none ∧ (delivered r.log).take 4 = ModbusHeaderBytes ∧
        6 + Uint16 (delivered r.log) 4 ≤ (delivered r.log).length) := by
  obtain ⟨r1, h1, hcase⟩ := GetModbusResponse_returned rd fuel s r h
  rcases hcase with ⟨e, -, rfl⟩ | hok1
  · exact Or.inl ⟨by simp, rfl⟩
  rcases GetModbusResponse_after_header rd fuel s r1 r h1 hok1 h with ⟨-, rfl⟩ | ⟨hm, r2, h2, hc⟩
  · exact Or.inl ⟨by simp, rfl⟩
  rcases hc with ⟨e, -, rfl⟩ | ⟨he, rfl⟩
  · exact Or.inl ⟨by simp, rfl⟩
  right
  obtain ⟨hb, hc1, -, -, hn⟩ := ReadMin_returned_buf rd fuel s scratch 6 r1 h1
  have h6 : 6 ≤ (delivered r1.log).length := by
    have := hn hok1
    omega
  obtain ⟨-, hcnt, -, evs, hlog, hsucc, -⟩ :=
    fillLoop_after_ReadMin rd fuel _ s _ _ r1 r2 h1 h2
  have hD : delivered r2.log = delivered r1.log ++ delivered evs := by
    rw [hlog, delivered_append]
  have hU : Uint16 (delivered r2.log) 4 = Uint16 r1.buf 4 := by
    rw [hD, hb, Uint16_append _ _ h6, Uint16_append _ _ h6]
  have hT : (delivered r2.log).take 4 = r1.buf.take 4 := by
    rw [hD, hb, List.take_append_of_le_length (by omega),
      List.take_append_of_le_length (by omega)]
  refine ⟨rfl, ?_, ?_⟩
  · show (delivered r2.log).take 4 = _
    rw [hT, hm]
  · show 6 + Uint16 (delivered r2.log) 4 ≤ (delivered r2.log).length
    have := hsucc he
    rw [hU, ← hcnt]
    push_cast at this
    omega

/-- C16, at the frame `13 37 00 00 00 04 00 03 AA BB` delivered in one read. -/
theorem GetModbusResponse_all_or_nothing_witness :
    GetModbusResponse scriptReader 1 (chunksScript [sampleFrame])
      = Run.returned ⟨⟨0x03, [0xAA, 0xBB] ++ List.replicate 1014 0⟩, none, [],
          [⟨1024, sampleFrame, none⟩]⟩ ∧
      (((none : Option Error) ≠ none ∧
          (⟨0x03, [0xAA, 0xBB] ++ List.replicate 1014 0⟩ : ModbusResponse) = ⟨0, []⟩) ∨
        ((none : Option Error) = none ∧
          (delivered [⟨1024, sampleFrame, none⟩]).take 4 = ModbusHeaderBytes ∧
          6 + Uint16 (delivered [⟨1024, sampleFrame, none⟩]) 4
            ≤ (delivered [⟨1024, sampleFrame, none⟩]).length)) :=
  ⟨by decide,
    GetModbusResponse_all_or_nothing scriptReader 1 (chunksScript [sampleFrame])
      ⟨⟨0x03, [0xAA, 0xBB] ++ List.replicate 1014 0⟩, none, [], [⟨1024, sampleFrame, none⟩]⟩
      (by decide)⟩

/-! ## Streams that make progress -/

/-- On a stream whose reads into a non-empty slice deliver a byte or fail, a
fill loop that requires no more than the buffer holds returns, having issued at
most as many reads as bytes were lacking. -/
theorem fillLoop_progress {σ : Type} (rd : Reader σ) (ts : Error) (n : Int)
    (hprog : ∀ s cap, 0 < cap →
      1 ≤ (rd.read s cap).1.data.length ∨ (rd.read s cap).1.err ≠ none) :
    ∀ (fuel : Nat) (s : σ) (res : List UInt8) (cnt : Nat) (log : List ReadEvent),
      cnt ≤ res.length → n ≤ (res.length : Int) → (n - cnt).toNat ≤ fuel →
      ∃ r, fillLoop rd ts n fuel s res cnt log = Run.returned r ∧
        r.log.length ≤ log.length + (n - cnt).toNat := by
  intro fuel
  induction fuel with
  | zero =>
    intro s res cnt log _ _ hf
    have hdone : ¬ ((cnt : Int) < n) := by omega
    exact ⟨_, fillLoop_done rd ts n 0 s res cnt log hdone, by simp⟩
  | succ fuel ih =>
    intro s res cnt log hc hn hf
    by_cases hlt : (cnt : Int) < n
    · have hcap : 0 < res.length - cnt := by omega
      have hfit := (rd.read s (res.length - cnt)).1.fits
      simp only [fillLoop, if_pos hlt]
      split
      · split
        · exact ⟨_, rfl, by simp; omega⟩
        · exact ⟨_, rfl, by simp; omega⟩
      · rename_i he
        have hp : 1 ≤ (rd.read s (res.length - cnt)).1.data.length := by
          rcases hprog s _ hcap with h | h
          · exact h
          · exact absurd he h
        have hlen : (writeAt res cnt (rd.read s (res.length - cnt)).1.data).length
            = res.length := writeAt_length _ _ _ (by omega)
        obtain ⟨r, hr, hlog⟩ := ih (rd.read s (res.length - cnt)).2
          (writeAt res cnt (rd.read s (res.length - cnt)).1.data)
          (cnt + (rd.read s (res.length - cnt)).1.data.length)
          (log ++ [⟨res.length - cnt, (rd.read s (res.length - cnt)).1.data,
            (rd.read s (res.length - cnt)).1.err⟩])
          (by rw [hlen]; omega) (by rw [hlen]; exact hn) (by push_cast; omega)
        refine ⟨r, hr, ?_⟩
        simp only [List.length_append, List.length_singleton] at hlog
        push_cast at hlog
        omega
    · exact ⟨_, fillLoop_done rd ts n _ s res cnt log hlt, by simp⟩

/-- C20. On a stream in which every read into a non-empty slice delivers at
least one byte or returns an error, `ReadMin(res, n)` with `n ≤ len(res)`
returns after at most `max(n, 0)` reads; for `n ≤ 0` it issues no read and
returns count 0 with a nil error, the buffer and the stream untouched. -/
theorem ReadMin_bounded_reads {σ : Type} (rd : Reader σ) (s : σ) (res : List UInt8) (n : Int)
    (hprog : ∀ s cap, 0 < cap →
      1 ≤ (rd.read s cap).1.data.length ∨ (rd.read s cap).1.err ≠ none)
    (hn : n ≤ (res.length : Int)) :
    (∀ fuel, n.toNat ≤ fuel →
        ∃ r, ReadMin rd fuel s res n = Run.returned r ∧ r.log.length ≤ n.toNat) ∧
      (n ≤ 0 → ∀ fuel, ReadMin rd fuel s res n = Run.returned ⟨0, none, res, s, []⟩) := by
  constructor
  · intro fuel hf
    obtain ⟨r, hr, hlog⟩ := fillLoop_progress rd Error.responseBufferTooSmall n hprog fuel s res
      0 [] (Nat.zero_le _) hn (by simpa using hf)
    exact ⟨r, hr, by simpa using hlog⟩
  · intro h0 fuel
    exact fillLoop_done rd _ n fuel s res 0 [] (by omega)

/-- C20, at the stream that hands out 1, 2, 3, 4 one byte per read, read into a
buffer of 4 bytes of which 3 are required. -/
theorem ReadMin_bounded_reads_witness :
    (∀ (s : List UInt8) (cap : Nat), 0 < cap →
        1 ≤ (oneByteReader.read s cap).1.data.length ∨ (oneByteReader.read s cap).1.err ≠ none) ∧
      (3 : Int) ≤ ((List.replicate 4 (0 : UInt8)).length : Int) ∧
      ((∀ fuel, (3 : Int).toNat ≤ fuel →
          ∃ r, ReadMin oneByteReader fuel [1, 2, 3, 4] (List.replicate 4 0) 3 = Run.returned r ∧
            r.log.length ≤ (3 : Int).toNat) ∧
        ((3 : Int) ≤ 0 → ∀ fuel, ReadMin oneByteReader fuel [1, 2, 3, 4] (List.replicate 4 0) 3
          = Run.returned ⟨0, none, List.replicate 4 0, [1, 2, 3, 4], []⟩)) :=
  have hp : ∀ (s : List UInt8) (cap : Nat), 0 < cap →
      1 ≤ (oneByteReader.read s cap).1.data.length ∨ (oneByteReader.read s cap).1.err ≠ none := by
    intro s cap h
    cases s <;> simp [oneByteReader, oneByteRead, h]
  ⟨hp, by decide,
    ReadMin_bounded_reads oneByteReader [1, 2, 3, 4] (List.replicate 4 0) 3 hp (by decide)⟩


/-! ## The JSON form of captured events -/

theorem stripPrefix_append (p s : List Char) : stripPrefix p (p ++ s) = some s := by
  induction p with
  | nil => cases s <;> rfl
  | cons c p ih => simp [stripPrefix, ih]

theorem spanWhile_append (p : Char → Bool) (xs : List Char) (y : Char) (ys : List Char)
    (hxs : ∀ x ∈ xs, p x = true) (hy : p y = false) :
    spanWhile p (xs ++ y :: ys) = (xs, y :: ys) := by
  induction xs with
  | nil => simp [spanWhile, hy]
  | cons x xs ih =>
    have hx : p x = true := hxs x (by simp)
    have ih' := ih (fun z hz => hxs z (by simp [hz]))
    simp [spanWhile, hx, ih']

theorem b64Index_b64Char :
    ∀ n : Fin 64, b64Index (b64Char n.val) = some n.val ∧ b64Char n.val ≠ padChar ∧
      (b64Char n.val != quoteChar) = true := by
  decide

theorem toOption_eq_some {ε α : Type} (x : Except ε α) (a : α)
    (h : x.toOption = some a) : x = Except.ok a := by
  cases x with
  | error e => cases h
  | ok b =>
    simp only [Except.toOption, Option.some.injEq] at h
    rw [h]

theorem uint8_digits :
    ∀ v : Fin 256, (parseUint8 (Nat.toDigits 10 v.val)).toOption = some (UInt8.ofNat v.val) ∧
      (Nat.toDigits 10 v.val).all Char.isDigit = true := by
  decide

theorem ofNat_toNat_byte (x : UInt8) : UInt8.ofNat x.toNat = x := by
  apply UInt8.eq_of_val_eq
  apply Fin.ext
  show x.toNat % 256 = x.toNat
  exact Nat.mod_eq_of_lt x.val.isLt

theorem b64Index_of_lt (n : Nat) (h : n < 64) :
    b64Index (b64Char n) = some n ∧ b64Char n ≠ padChar ∧ (b64Char n != quoteChar) = true :=
  b64Index_b64Char ⟨n, h⟩

theorem b64Decode_b64Encode : ∀ bs : List UInt8, b64Decode (b64Encode bs) = some bs := by
  intro bs
  induction bs using b64Encode.induct with
  | case1 => rfl
  | case2 x =>
    have hx : x.toNat < 256 := x.val.isLt
    obtain ⟨a1, -, -⟩ := b64Index_of_lt (x.toNat / 4) (by omega)
    obtain ⟨b1, -, -⟩ := b64Index_of_lt (x.toNat % 4 * 16) (by omega)
    simp only [b64Encode, b64Decode, a1, b1, and_self, if_true]
    have : x.toNat / 4 * 4 + x.toNat % 4 * 16 / 16 = x.toNat := by omega
    rw [this, ofNat_toNat_byte]
  | case3 x y =>
    have hx : x.toNat < 256 := x.val.isLt
    have hy : y.toNat < 256 := y.val.isLt
    obtain ⟨a1, -, -⟩ := b64Index_of_lt (x.toNat / 4) (by omega)
    obtain ⟨b1, -, -⟩ := b64Index_of_lt (x.toNat % 4 * 16 + y.toNat / 16) (by omega)
    obtain ⟨c1, c2, -⟩ := b64Index_of_lt (y.toNat % 16 * 4) (by omega)
    simp only [b64Encode, b64Decode, a1, b1, c1, c2, and_self, if_true, if_false]
    have e1 : x.toNat / 4 * 4 + (x.toNat % 4 * 16 + y.toNat / 16) / 16 = x.toNat := by omega
    have e2 : (x.toNat % 4 * 16 + y.toNat / 16) % 16 * 16 + y.toNat % 16 * 4 / 4 = y.toNat := by
      omega
    rw [e1, e2, ofNat_toNat_byte, ofNat_toNat_byte]
  | case4 x y z rest ih =>
    have hx : x.toNat < 256 := x.val.isLt
    have hy : y.toNat < 256 := y.val.isLt
    have hz : z.toNat < 256 := z.val.isLt
    obtain ⟨a1, -, -⟩ := b64Index_of_lt (x.toNat / 4) (by omega)
    obtain ⟨b1, -, -⟩ := b64Index_of_lt (x.toNat % 4 * 16 + y.toNat / 16) (by omega)
    obtain ⟨c1, -, -⟩ := b64Index_of_lt (y.toNat % 16 * 4 + z.toNat / 64) (by omega)
    obtain ⟨d1, d2, -⟩ := b64Index_of_lt (z.toNat % 64) (by omega)
    simp only [b64Encode, b64Decode, a1, b1, c1, d1, d2, and_false, if_false, ih]
    have e1 : x.toNat / 4 * 4 + (x.toNat % 4 * 16 + y.toNat / 16) / 16 = x.toNat := by omega
    have e2 : (x.toNat % 4 * 16 + y.toNat / 16) % 16 * 16
        + (y.toNat % 16 * 4 + z.toNat / 64) / 4 = y.toNat := by omega
    have e3 : (y.toNat % 16 * 4 + z.toNat / 64) % 4 * 64 + z.toNat % 64 = z.toNat := by omega
    rw [e1, e2, e3, ofNat_toNat_byte, ofNat_toNat_byte, ofNat_toNat_byte]

theorem b64Encode_no_quote :
    ∀ bs : List UInt8, ∀ c ∈ b64Encode bs, (c != quoteChar) = true := by
  intro bs
  have hpad : (padChar != quoteChar) = true := by decide
  induction bs using b64Encode.induct with
  | case1 => simp [b64Encode]
  | case2 x =>
    have hx : x.toNat < 256 := x.val.isLt
    obtain ⟨-, -, a3⟩ := b64Index_of_lt (x.toNat / 4) (by omega)
    obtain ⟨-, -, b3⟩ := b64Index_of_lt (x.toNat % 4 * 16) (by omega)
    intro c hc
    simp only [b64Encode, List.mem_cons, List.mem_singleton, List.not_mem_nil, or_false] at hc
    rcases hc with rfl | rfl | rfl | rfl <;> assumption
  | case3 x y =>
    have hx : x.toNat < 256 := x.val.isLt
    have hy : y.toNat < 256 := y.val.isLt
    obtain ⟨-, -, a3⟩ := b64Index_of_lt (x.toNat / 4) (by omega)
    obtain ⟨-, -, b3⟩ := b64Index_of_lt (x.toNat % 4 * 16 + y.toNat / 16) (by omega)
    obtain ⟨-, -, c3⟩ := b64Index_of_lt (y.toNat % 16 * 4) (by omega)
    intro c hc
    simp only [b64Encode, List.mem_cons, List.mem_singleton, List.not_mem_nil, or_false] at hc
    rcases hc with rfl | rfl | rfl | rfl <;> assumption
  | case4 x y z rest ih =>
    have hx : x.toNat < 256 := x.val.isLt
    have hy : y.toNat < 256 := y.val.isLt
    have hz : z.toNat < 256 := z.val.isLt
    obtain ⟨-, -, a3⟩ := b64Index_of_lt (x.toNat / 4) (by omega)
    obtain ⟨-, -, b3⟩ := b64Index_of_lt (x.toNat % 4 * 16 + y.toNat / 16) (by omega)
    obtain ⟨-, -, c3⟩ := b64Index_of_lt (y.toNat % 16 * 4 + z.toNat / 64) (by omega)
    obtain ⟨-, -, d3⟩ := b64Index_of_lt (z.toNat % 64) (by omega)
    intro c hc
    simp only [b64Encode, List.mem_cons] at hc
    rcases hc with rfl | rfl | rfl | rfl | hc
    · exact a3
    · exact b3
    · exact c3
    · exact d3
    · exact ih c hc

theorem parseUint8_toDigits (f : UInt8) :
    parseUint8 (Nat.toDigits 10 f.toNat) = Except.ok f ∧
      ∀ c ∈ Nat.toDigits 10 f.toNat, Char.isDigit c = true := by
  obtain ⟨h1, h2⟩ := uint8_digits ⟨f.toNat, f.val.isLt⟩
  have h3 := toOption_eq_some _ _ h1
  simp only [ofNat_toNat_byte] at h3
  exact ⟨h3, List.all_eq_true.mp h2⟩

theorem responseKey_cons :
    ∃ tl, responseKey = Char.ofNat 44 :: tl ∧ Char.isDigit (Char.ofNat 44) = false :=
  ⟨_, rfl, by decide⟩

theorem stripPrefix_null_quote (s : List Char) :
    stripPrefix "null".toList (quoteChar :: s) = none := by
  show stripPrefix [Char.ofNat 110, Char.ofNat 117, Char.ofNat 108, Char.ofNat 108] _ = none
  unfold stripPrefix
  rw [if_neg (by decide)]

/-- What `json.Unmarshal` makes of the text `json.Marshal` gives an
`encodedModbusEvent`. -/
theorem goUnmarshal_goMarshal (e : encodedModbusEvent) :
    goUnmarshal (openBrace :: functionKey ++ Nat.toDigits 10 e.Function.toNat ++ responseKey
      ++ (match e.Response with
        | none => "null".toList
        | some bs => quoteChar :: b64Encode bs ++ [quoteChar]) ++ [closeBrace]) = Except.ok e := by
  obtain ⟨f, resp⟩ := e
  obtain ⟨hnum, hdig⟩ := parseUint8_toDigits f
  obtain ⟨tl, hkey, hcomma⟩ := responseKey_cons
  cases resp with
  | none =>
    have h1 : stripPrefix (openBrace :: functionKey)
        (openBrace :: functionKey ++ Nat.toDigits 10 f.toNat ++ responseKey ++ "null".toList
          ++ [closeBrace])
        = some (Nat.toDigits 10 f.toNat ++ responseKey ++ ("null".toList ++ [closeBrace])) := by
      rw [← stripPrefix_append (openBrace :: functionKey)]
      simp only [List.append_assoc, List.cons_append]
    have h2 : spanWhile Char.isDigit
        (Nat.toDigits 10 f.toNat ++ responseKey ++ ("null".toList ++ [closeBrace]))
        = (Nat.toDigits 10 f.toNat, responseKey ++ ("null".toList ++ [closeBrace])) := by
      rw [hkey, List.append_assoc, List.cons_append]
      exact spanWhile_append _ _ _ _ hdig hcomma
    simp only [goUnmarshal, h1, h2, hnum, stripPrefix_append, if_true]
  | some bs =>
    have h1 : stripPrefix (openBrace :: functionKey)
        (openBrace :: functionKey ++ Nat.toDigits 10 f.toNat ++ responseKey
          ++ (quoteChar :: b64Encode bs ++ [quoteChar]) ++ [closeBrace])
        = some (Nat.toDigits 10 f.toNat ++ responseKey
          ++ (quoteChar :: (b64Encode bs ++ quoteChar :: [closeBrace]))) := by
      rw [← stripPrefix_append (openBrace :: functionKey)]
      simp only [List.append_assoc, List.cons_append, List.nil_append]
    have h2 : spanWhile Char.isDigit (Nat.toDigits 10 f.toNat ++ responseKey
          ++ (quoteChar :: (b64Encode bs ++ quoteChar :: [closeBrace])))
        = (Nat.toDigits 10 f.toNat,
            responseKey ++ (quoteChar :: (b64Encode bs ++ quoteChar :: [closeBrace]))) := by
      rw [hkey, List.append_assoc, List.cons_append]
      exact spanWhile_append _ _ _ _ hdig hcomma
    have h3 : stripPrefix [quoteChar] (quoteChar :: (b64Encode bs ++ quoteChar :: [closeBrace]))
        = some (b64Encode bs ++ quoteChar :: [closeBrace]) :=
      stripPrefix_append [quoteChar] _
    have h4 : spanWhile (fun c => c != quoteChar) (b64Encode bs ++ quoteChar :: [closeBrace])
        = (b64Encode bs, [quoteChar, closeBrace]) :=
      spanWhile_append _ _ _ _ (b64Encode_no_quote bs) (by decide)
    simp only [goUnmarshal, h1, h2, hnum, stripPrefix_append, stripPrefix_null_quote, h3, h4,
      if_true, b64Decode_b64Encode]

/-- C17. For every `ModbusEvent` `m`, `MarshalJSON` succeeds with an object of
the two keys `function_code` and `response`, and `UnmarshalJSON` applied to that
text, on any receiver, succeeds and leaves an event with the `Function` and the
`Response` of `m`, a nil, an empty and a 65533-byte `Response` included. -/
theorem UnmarshalJSON_MarshalJSON (m m0 : ModbusEvent) :
    ∃ t, MarshalJSON goJson m = Except.ok t ∧
      t = openBrace :: functionKey ++ Nat.toDigits 10 m.Function.toNat ++ responseKey
        ++ (match m.Response with
          | none => "null".toList
          | some bs => quoteChar :: b64Encode bs ++ [quoteChar]) ++ [closeBrace] ∧
      UnmarshalJSON goJson m0 t = (m, none) := by
  refine ⟨_, rfl, rfl, ?_⟩
  have h := goUnmarshal_goMarshal ⟨m.Function, m.Response⟩
  simp only at h
  simp only [UnmarshalJSON, goJson, h]

end Zlib
